import Mathlib

/-!
# Verification of the kilo-style terminal editor (`src/kilo.cpp`)

Shallow embedding of the key decoder, the document buffer, the cursor
dispatch and the viewport recomputation, followed by the theorems that settle
the specification's claims.

Modelling conventions
* A `char` is represented by its byte value (a `Nat`); a `std::string` is the
  list of its bytes (`Str`).
* The C `int` fields of `EditorConfig` are mathematical integers (`Int`):
  signed overflow is undefined in C++, and every value handled below is
  bounded by a row length or a row count.  Conversions to `uint` and to `char`
  are explicit reductions modulo `2^32` and `2^8`.
* A function that may touch memory returns `Option`: `none` is an access
  outside an allocated array or string (undefined behaviour in the source) or
  a loop that does not finish.
-/

namespace Kilo

/-! ## Characters, strings and key codes -/

/-- A `std::string`: the list of its bytes. -/
abbrev Str := List Nat

/-- Enumerator `BACKSPACE` of `enum EditorKey`. -/
def BACKSPACE : Int := 127
/-- Enumerator `ARROW_LEFT` of `enum EditorKey`. -/
def ARROW_LEFT : Int := 1000
/-- Enumerator `ARROW_RIGHT` of `enum EditorKey`. -/
def ARROW_RIGHT : Int := 1001
/-- Enumerator `ARROW_UP` of `enum EditorKey`. -/
def ARROW_UP : Int := 1002
/-- Enumerator `ARROW_DOWN` of `enum EditorKey`. -/
def ARROW_DOWN : Int := 1003
/-- Enumerator `DEL_KEY` of `enum EditorKey`. -/
def DEL_KEY : Int := 1004
/-- Enumerator `HOME_KEY` of `enum EditorKey`. -/
def HOME_KEY : Int := 1005
/-- Enumerator `END_KEY` of `enum EditorKey`. -/
def END_KEY : Int := 1006
/-- Enumerator `PAGE_UP` of `enum EditorKey`. -/
def PAGE_UP : Int := 1007
/-- Enumerator `PAGE_DOWN` of `enum EditorKey`. -/
def PAGE_DOWN : Int := 1008

/-- The escape byte `'\x1b'` as the `int` the decoder returns. -/
def ESC : Int := 27

/-- Macro `CTRL_KEY(k)`: `(k) & 0x1f`, applied to the byte value of `k`. -/
def CTRL_KEY (k : Nat) : Int := ((k &&& 0x1f : Nat) : Int)

/-- Macro `KILO_TAB`: four spaces. -/
def KILO_TAB : Str := [32, 32, 32, 32]

/-- The value `sizeof(KILO_TAB) - 1`: the number of characters of `KILO_TAB`. -/
def KILO_TAB_LEN : Nat := KILO_TAB.length

/-- Conversion of a (signed) `char` holding byte `b` to `int`. -/
def charToInt (b : Nat) : Int :=
  if b % 256 < 128 then ((b % 256 : Nat) : Int) else ((b % 256 : Nat) : Int) - 256

/-- Conversion of an `int` to `char`: the byte the character holds. -/
def intToChar (c : Int) : Nat := (c % 256).toNat

/-- Conversion of an `int` to `uint` (32 bits). -/
def toUint (i : Int) : Nat := (i % 4294967296).toNat

/-! ## Terminal input -/

/-- Outcome of one `read(STDIN_FILENO, &c, 1)`. -/
inductive ReadResult where
  /-- The call returned 1 and stored this byte. -/
  | byte (b : Nat)
  /-- The call returned 0 (time-out), or -1 with `errno == EAGAIN`. -/
  | timeout
  /-- The call returned -1 with another `errno`. -/
  | error
  deriving DecidableEq, Repr

/-- One `read` on the input stream: the scheduled outcome, and a time-out once
the stream is used up. -/
def read1 : List ReadResult → ReadResult × List ReadResult
  | [] => (ReadResult.timeout, [])
  | r :: rest => (r, rest)

/-- The `switch (seq[1])` of the number escape sequences (`ESC [ digit ~`). -/
def numberKey (seq1 : Nat) : Option Int :=
  if seq1 = 49 then some HOME_KEY
  else if seq1 = 51 then some DEL_KEY
  else if seq1 = 52 then some END_KEY
  else if seq1 = 53 then some PAGE_UP
  else if seq1 = 54 then some PAGE_DOWN
  else if seq1 = 55 then some HOME_KEY
  else if seq1 = 56 then some END_KEY
  else none

/-- The `switch (seq[1])` of the letter escape sequences (`ESC [ letter`). -/
def letterKey (seq1 : Nat) : Option Int :=
  if seq1 = 65 then some ARROW_UP
  else if seq1 = 66 then some ARROW_DOWN
  else if seq1 = 67 then some ARROW_RIGHT
  else if seq1 = 68 then some ARROW_LEFT
  else if seq1 = 72 then some HOME_KEY
  else if seq1 = 70 then some END_KEY
  else none

/-- The `switch (seq[1])` after `ESC O`. -/
def oKey (seq1 : Nat) : Option Int :=
  if seq1 = 72 then some HOME_KEY
  else if seq1 = 70 then some END_KEY
  else none

/-- Function `editorReadSequenceKey`: decodes what follows an escape byte.
Returns the key and the unread input. -/
def editorReadSequenceKey (inp : List ReadResult) : Int × List ReadResult :=
  match read1 inp with
  | (ReadResult.byte seq0, inp1) =>
    match read1 inp1 with
    | (ReadResult.byte seq1, inp2) =>
      if seq0 = 91 then
        if 48 ≤ seq1 ∧ seq1 ≤ 57 then
          match read1 inp2 with
          | (ReadResult.byte seq2, inp3) =>
            match (if seq2 = 126 then numberKey seq1 else none) with
            | some k => (k, inp3)
            | none =>
              match letterKey seq1 with
              | some k => (k, inp3)
              | none => (ESC, inp3)
          | (_, inp3) => (ESC, inp3)
        else
          match letterKey seq1 with
          | some k => (k, inp2)
          | none => (ESC, inp2)
      else if seq0 = 79 then
        match oKey seq1 with
        | some k => (k, inp2)
        | none => (ESC, inp2)
      else (ESC, inp2)
    | (_, inp2) => (ESC, inp2)
  | (_, inp1) => (ESC, inp1)

/-- Function `editorReadKey`: waits for one byte and decodes it.  `none` means
that no key is returned: the process dies on a read error (`KILO_SANITY`), or
no byte ever arrives and the loop keeps waiting. -/
def editorReadKey : List ReadResult → Option (Int × List ReadResult)
  | [] => none
  | ReadResult.byte c :: rest =>
    if c = 27 then some (editorReadSequenceKey rest) else some (charToInt c, rest)
  | ReadResult.timeout :: rest => editorReadKey rest
  | ReadResult.error :: _ => none

/-- The specification's table of escape sequences: the bytes that follow the
escape byte, and the logical key they stand for. -/
def specEscapeTable : List (List Nat × Int) :=
  [ ([91, 65], ARROW_UP), ([91, 66], ARROW_DOWN), ([91, 67], ARROW_RIGHT),
    ([91, 68], ARROW_LEFT), ([91, 72], HOME_KEY), ([79, 72], HOME_KEY),
    ([91, 70], END_KEY), ([79, 70], END_KEY),
    ([91, 49, 126], HOME_KEY), ([91, 55, 126], HOME_KEY),
    ([91, 51, 126], DEL_KEY),
    ([91, 52, 126], END_KEY), ([91, 56, 126], END_KEY),
    ([91, 53, 126], PAGE_UP), ([91, 54, 126], PAGE_DOWN) ]

/-! ## Editor state -/

/-- A `string*`: the null pointer, or an array obtained from `new string[n]`. -/
inductive StringArray where
  /-- The null pointer (the value of `config.rows` before the first row). -/
  | nullptr
  /-- An allocated array with these elements. -/
  | alloc (elems : List Str)
  deriving DecidableEq, Repr

/-- Number of elements that may be accessed through the pointer. -/
def StringArray.size : StringArray → Nat
  | StringArray.nullptr => 0
  | StringArray.alloc l => l.length

/-- Read of `array[i]`; `none` outside the allocation. -/
def StringArray.get? : StringArray → Nat → Option Str
  | StringArray.nullptr, _ => none
  | StringArray.alloc l, i => l[i]?

/-- Write `array[i] = v`; `none` outside the allocation. -/
def StringArray.set? : StringArray → Nat → Str → Option StringArray
  | StringArray.nullptr, _, _ => none
  | StringArray.alloc l, i, v =>
    if i < l.length then some (StringArray.alloc (l.set i v)) else none

/-- Read of `array[i]` with an `int` index. -/
def StringArray.getI (a : StringArray) (i : Int) : Option Str :=
  if i < 0 then none else a.get? i.toNat

/-- Write `array[i] = v` with an `int` index. -/
def StringArray.setI (a : StringArray) (i : Int) (v : Str) : Option StringArray :=
  if i < 0 then none else a.set? i.toNat v

/-- The global `struct EditorConfig config` (without the saved terminal
attributes). -/
structure EditorConfig where
  cx : Int
  cy : Int
  rx : Int
  rowOff : Int
  colOff : Int
  screenRows : Int
  screenCols : Int
  numRows : Int
  rows : StringArray
  renderRows : StringArray
  filename : Str
  statusMsg : Str
  statusMsgTime : Int
  deriving DecidableEq, Repr

/-- What a dispatched key leaves behind. -/
inductive Outcome where
  /-- The function returned with this state. -/
  | running (s : EditorConfig)
  /-- The process called `exit` with this status. -/
  | exited (status : Int)
  /-- Undefined behaviour: an access outside an array or a string, or a loop
  that does not finish. -/
  | fault
  deriving DecidableEq, Repr

/-! ## File i/o: rows and render rows -/

/-- The copy loop of `reallocStringArray`: `tmpRows[i] = array[i]` for
`i = 0 .. n-1`. -/
def copyRows (array : StringArray) (n : Nat) (tmpRows : StringArray) : Option StringArray :=
  (List.range n).foldlM
    (fun tmp i => do
      let v ← array.get? i
      tmp.set? i v)
    tmpRows

/-- Function `reallocStringArray`: the array that `array` points to afterwards.
`new string[newSize]` with a negative size does not return. -/
def reallocStringArray (array : StringArray) (currSize newSize : Int) : Option StringArray :=
  if newSize < 0 then none
  else
    let tmpRows := StringArray.alloc (List.replicate newSize.toNat [])
    match array with
    | StringArray.nullptr => some tmpRows
    | StringArray.alloc _ =>
      if currSize ≤ newSize then copyRows array currSize.toNat tmpRows
      else copyRows array newSize.toNat tmpRows

/-- Read of `row[j]` on a `const string`: the character, the terminating zero
at `j = length`, and `none` beyond. -/
def strAt (row : Str) (j : Nat) : Option Nat :=
  if j < row.length then row[j]?
  else if j = row.length then some 0
  else none

/-- Function `editorRowCxToRx`. -/
def editorRowCxToRx (row : Str) (cx : Int) : Option Int :=
  (List.range cx.toNat).foldlM
    (fun (rx : Int) j => do
      let ch ← strAt row j
      let rx1 := if ch = 9 then rx + ((KILO_TAB_LEN : Int) - 1) else rx
      pure (rx1 + 1))
    0

/-- Search `s.find(c, index)` of one character: position of the first `c` at
or after `index`, `none` for `npos`. -/
def findFrom (c : Nat) : Str → Nat → Option Nat
  | [], _ => none
  | x :: xs, pos => if x = c then some pos else findFrom c xs (pos + 1)

/-- Call `rowStr.find("\t", index)`. -/
def strFind (rowStr : Str) (c : Nat) (index : Nat) : Option Nat :=
  findFrom c (rowStr.drop index) index

/-- Call `rowStr.replace(index, 1, t)`. -/
def strReplace1 (rowStr : Str) (index : Nat) (t : Str) : Str :=
  rowStr.take index ++ t ++ rowStr.drop (index + 1)

/-- The `while (index != string::npos)` loop of `editorUpdateRow`, run for at
most `fuel` iterations. -/
def updateRowLoop : Nat → Str → Nat → Option Str
  | 0, _, _ => none
  | fuel + 1, rowStr, index =>
    match strFind rowStr 9 index with
    | none => some rowStr
    | some i => updateRowLoop fuel (strReplace1 rowStr i KILO_TAB) (i + KILO_TAB_LEN)

/-- The string `rowStr` that `editorUpdateRow` builds from a row.  The loop
runs once per tab and once more, so `length + 1` iterations are enough. -/
def renderString (row : Str) : Option Str :=
  updateRowLoop (row.length + 1) row 0

/-- Function `editorUpdateRow`. -/
def editorUpdateRow (s : EditorConfig) (rowIdx : Nat) : Option EditorConfig := do
  let row ← s.rows.get? rowIdx
  let rowStr ← renderString row
  let renderRows ← s.renderRows.set? rowIdx rowStr
  pure { s with renderRows := renderRows }

/-- Function `editorAppendRow`; `row` is the string `string(row, len)`. -/
def editorAppendRow (s : EditorConfig) (row : Str) : Option EditorConfig := do
  let rows ← reallocStringArray s.rows s.numRows (s.numRows + 1)
  let renderRows ← reallocStringArray s.renderRows s.numRows (s.numRows + 1)
  let rows1 ← rows.setI s.numRows row
  let s1 := { s with rows := rows1, renderRows := renderRows }
  let s2 ← editorUpdateRow s1 (toUint s1.numRows)
  pure { s2 with numRows := s2.numRows + 1 }

/-- Call `row.insert(pos, 1, c)` with `pos ≤ length`. -/
def strInsert (row : Str) (pos : Nat) (c : Nat) : Str :=
  row.take pos ++ c :: row.drop pos

/-- The first statement of `editorRowInsertChar`: the column `at` after
`if (at < 0 || at > length) at = length`. -/
def clampAt (row : Str) (pos : Int) : Int :=
  if pos < 0 ∨ pos > (row.length : Int) then (row.length : Int) else pos

/-- Function `editorRowInsertChar`; `pos` is the parameter `at`. -/
def editorRowInsertChar (s : EditorConfig) (rowIdx : Nat) (pos : Int) (c : Nat) :
    Option EditorConfig := do
  let row ← s.rows.get? rowIdx
  let rows ← s.rows.set? rowIdx (strInsert row (clampAt row pos).toNat c)
  editorUpdateRow { s with rows := rows } rowIdx

/-! ## Editor operations -/

/-- Function `editorInsertChar`. -/
def editorInsertChar (s : EditorConfig) (c : Nat) : Option EditorConfig := do
  let s1 ← (if s.cy = s.numRows then editorAppendRow s [] else some s)
  let s2 ← editorRowInsertChar s1 (toUint s1.cy) s1.cx c
  pure { s2 with cx := s2.cx + 1 }

/-! ## Input -/

/-- The length `row->length()` behind the pointer
`(cy >= numRows) ? nullptr : &rows[cy]`; the outer `none` is a fault, the
inner `none` the null pointer. -/
def currentRowLen (s : EditorConfig) : Option (Option Int) :=
  if s.cy ≥ s.numRows then some none
  else
    match s.rows.getI s.cy with
    | none => none
    | some r => some (some (r.length : Int))

/-- The `switch (key)` of `editorMoveCursor`. -/
def moveCursorSwitch (s : EditorConfig) (key : Int) : Option EditorConfig :=
  if key = ARROW_LEFT then
    if s.cx > 0 then pure { s with cx := s.cx - 1 }
    else if s.cy > 0 then do
      let r ← s.rows.getI (s.cy - 1)
      pure { s with cy := s.cy - 1, cx := (r.length : Int) }
    else pure s
  else if key = ARROW_RIGHT then
    if s.cy ≥ s.numRows then pure s
    else do
      let r ← s.rows.getI s.cy
      if s.cx < (r.length : Int) then pure { s with cx := s.cx + 1 }
      else if s.cx = (r.length : Int) then pure { s with cy := s.cy + 1, cx := 0 }
      else pure s
  else if key = ARROW_UP then
    if s.cy > 0 then pure { s with cy := s.cy - 1 } else pure s
  else if key = ARROW_DOWN then
    if s.cy < s.numRows then pure { s with cy := s.cy + 1 } else pure s
  else pure s

/-- The end of `editorMoveCursor`: `cx` is brought back to the length of the
row the cursor is now on (0 past the last row). -/
def clampCursor (s : EditorConfig) : Option EditorConfig := do
  let row ← currentRowLen s
  let rowlen : Int := match row with
    | some n => n
    | none => 0
  pure (if s.cx > rowlen then { s with cx := rowlen } else s)

/-- Function `editorMoveCursor`. -/
def editorMoveCursor (s : EditorConfig) (key : Int) : Option EditorConfig :=
  (moveCursorSwitch s key).bind clampCursor

/-- The loop `while (times--) editorMoveCursor(key)` for a non-negative
`times`. -/
def moveCursorTimes (key : Int) : Nat → EditorConfig → Option EditorConfig
  | 0, s => some s
  | n + 1, s => (editorMoveCursor s key).bind (moveCursorTimes key n)

/-- The `PAGE_UP` / `PAGE_DOWN` case of `editorProcessKeypress`.  With a
negative `screenRows` the count-down loop does not finish. -/
def pageMove (s : EditorConfig) (c : Int) : Option EditorConfig :=
  let s1 : EditorConfig :=
    if c = PAGE_UP then { s with cy := s.rowOff }
    else
      let s0 := { s with cy := s.rowOff + s.screenRows - 1 }
      if s0.cy > s0.numRows then { s0 with cy := s0.numRows } else s0
  if s1.screenRows < 0 then none
  else moveCursorTimes (if c = PAGE_UP then ARROW_UP else ARROW_DOWN) s1.screenRows.toNat s1

/-- Lift of a fallible step to an `Outcome`. -/
def Outcome.ofOption : Option EditorConfig → Outcome
  | some s => Outcome.running s
  | none => Outcome.fault

/-- Function `editorProcessKeypress`, applied to the key `c` that
`editorReadKey` returned. -/
def editorProcessKeypress (s : EditorConfig) (c : Int) : Outcome :=
  if c = 13 then Outcome.running s
  else if c = CTRL_KEY 113 then Outcome.exited 0
  else if c = HOME_KEY then Outcome.running { s with cx := 0 }
  else if c = END_KEY then
    Outcome.ofOption ((s.rows.getI s.cy).map (fun r => { s with cx := (r.length : Int) }))
  else if c = BACKSPACE ∨ c = CTRL_KEY 104 ∨ c = DEL_KEY then Outcome.running s
  else if c = PAGE_UP ∨ c = PAGE_DOWN then Outcome.ofOption (pageMove s c)
  else if c = ARROW_LEFT ∨ c = ARROW_RIGHT ∨ c = ARROW_UP ∨ c = ARROW_DOWN then
    Outcome.ofOption (editorMoveCursor s c)
  else if c = CTRL_KEY 108 ∨ c = ESC then Outcome.running s
  else Outcome.ofOption (editorInsertChar s (intToChar c))

/-! ## Output: the viewport -/

/-- First part of `editorScroll`: the render column `rx` of the cursor. -/
def scrollRx (s : EditorConfig) : Option EditorConfig :=
  let s0 := { s with rx := 0 }
  if s0.cy < s0.numRows then do
    let row ← s0.rows.getI s0.cy
    let rx ← editorRowCxToRx row s0.cx
    pure { s0 with rx := rx }
  else pure s0

/-- Second part of `editorScroll`: the four `if` statements on the offsets. -/
def scrollOffsets (s1 : EditorConfig) : EditorConfig :=
  let s2 := if s1.cy < s1.rowOff then { s1 with rowOff := s1.cy } else s1
  let s3 := if s2.cy ≥ s2.rowOff + s2.screenRows then
      { s2 with rowOff := s2.cy - s2.screenRows + 1 } else s2
  let s4 := if s3.rx < s3.colOff then { s3 with colOff := s3.rx } else s3
  if s4.rx ≥ s4.colOff + s4.screenCols then
    { s4 with colOff := s4.rx - s4.screenCols + 1 } else s4

/-- Function `editorScroll`. -/
def editorScroll (s : EditorConfig) : Option EditorConfig :=
  (scrollRx s).map scrollOffsets

/-! ## Output: the frame -/

/-- Macro `KILO_VERSION`: the text `0.0.1`. -/
def KILO_VERSION : Str := [48, 46, 48, 46, 49]

/-- Macro `KILO_STATUS_SIZE`. -/
def KILO_STATUS_SIZE : Nat := 80

/-- Macro `CURSOR_TOP_LEFT_CMD`: `ESC [ H`. -/
def CURSOR_TOP_LEFT_CMD : Str := [27, 91, 72]

/-- Macro `HIDE_CURSOR_CMD`: `ESC [ ? 2 5 l`. -/
def HIDE_CURSOR_CMD : Str := [27, 91, 63, 50, 53, 108]

/-- Macro `SHOW_CURSOR_CMD`: `ESC [ ? 2 5 h`. -/
def SHOW_CURSOR_CMD : Str := [27, 91, 63, 50, 53, 104]

/-- Macro `CLEAR_LINE_CMD`: `ESC [ K`. -/
def CLEAR_LINE_CMD : Str := [27, 91, 75]

/-- Macro `INVERT_COLORS_CMD`: `ESC [ 7 m`. -/
def INVERT_COLORS_CMD : Str := [27, 91, 55, 109]

/-- Macro `RESET_COLORS_CMD`: `ESC [ m`. -/
def RESET_COLORS_CMD : Str := [27, 91, 109]

/-- The string literal `"\r\n"`. -/
def CRLF : Str := [13, 10]

/-- The characters of a C string: what precedes the first zero byte. -/
def cstr (s : Str) : Str := s.takeWhile (fun b => b != 0)

/-- Decimal digits of a natural number, most significant first, built from the
least significant digit in at most `fuel` steps. -/
def natDigits : Nat → Nat → Str → Str
  | 0, _, acc => acc
  | fuel + 1, n, acc =>
    if n / 10 = 0 then (48 + n % 10) :: acc
    else natDigits fuel (n / 10) ((48 + n % 10) :: acc)

/-- Conversion `%d` of `printf`. -/
def fmtInt (n : Int) : Str :=
  if n < 0 then 45 :: natDigits (n.natAbs + 1) n.natAbs []
  else natDigits (n.natAbs + 1) n.natAbs []

/-- What `snprintf(buf, size, ...)` leaves in `buf` for the formatted text
`text`: at most `size - 1` characters. -/
def snprintfBuf (size : Nat) (text : Str) : Str := text.take (size - 1)

/-- Call `ab.append(p + off, len)` on the characters `p` of a C string (a zero
byte follows them): `none` when a character outside the string is read or
`len` is negative. -/
def appendFrom (ab p : Str) (off len : Int) : Option Str :=
  if len < 0 then none
  else if len = 0 then some ab
  else if off < 0 ∨ off + len > (p.length : Int) + 1 then none
  else some (ab ++ ((p ++ [0]).drop off.toNat).take len.toNat)

/-- The text that `snprintf` writes into `welcome` in `editorDrawRows`. -/
def welcomeText : Str :=
  snprintfBuf 80
    ([75, 105, 108, 111, 32, 101, 100, 105, 116, 111, 114, 32, 45, 45, 32,
      118, 101, 114, 115, 105, 111, 110, 32] ++ KILO_VERSION)

/-- The welcome branch of `editorDrawRows`. -/
def drawWelcome (s : EditorConfig) (ab : Str) : Option Str :=
  let welcomelen0 : Int :=
    ([75, 105, 108, 111, 32, 101, 100, 105, 116, 111, 114, 32, 45, 45, 32,
      118, 101, 114, 115, 105, 111, 110, 32] ++ KILO_VERSION).length
  let welcomelen : Int := if welcomelen0 > s.screenCols then s.screenCols else welcomelen0
  let padding : Int := Int.tdiv (s.screenCols - welcomelen) 2
  let ab1 : Str := if padding ≠ 0 then ab ++ [126] else ab
  let padding1 : Int := if padding ≠ 0 then padding - 1 else padding
  if padding1 < 0 then none
  else appendFrom (ab1 ++ List.replicate padding1.toNat 32) welcomeText 0 welcomelen

/-- One iteration of the loop of `editorDrawRows`: screen line `i`. -/
def drawRow (s : EditorConfig) (i : Int) (ab : Str) : Option Str := do
  let fileRow : Int := i + s.rowOff
  let ab1 ← (if fileRow ≥ s.numRows then
      (if s.numRows = 0 ∧ i = Int.tdiv s.screenRows 3 then drawWelcome s ab
       else some (ab ++ [126]))
    else
      (s.renderRows.getI fileRow).bind (fun r =>
        let len0 : Int := (r.length : Int) - s.colOff
        let len1 : Int := if len0 < 0 then 0 else len0
        let len2 : Int := if len1 > s.screenCols then s.screenCols else len1
        appendFrom ab r s.colOff len2))
  pure (ab1 ++ CLEAR_LINE_CMD ++ CRLF)

/-- Function `editorDrawRows`: the buffer `ab` after the call. -/
def editorDrawRows (s : EditorConfig) (ab : Str) : Option Str :=
  (List.range s.screenRows.toNat).foldlM (fun acc (i : Nat) => drawRow s (i : Int) acc) ab

/-- The `while (len < screenCols)` loop of `editorDrawStatusBar`, which runs
at most `screenCols - len` times. -/
def statusBarLoop (s : EditorConfig) (rstatus : Str) (rlen : Int) : Nat → Int → Str → Str
  | 0, _, ab => ab
  | fuel + 1, len, ab =>
    if len < s.screenCols then
      (if s.screenCols - len = rlen then ab ++ rstatus
       else statusBarLoop s rstatus rlen fuel (len + 1) (ab ++ [32]))
    else ab

/-- The text formatted into `status` by `editorDrawStatusBar`:
`"%.20s - %d lines"`. -/
def statusText (s : EditorConfig) : Str :=
  (cstr s.filename).take 20 ++ [32, 45, 32] ++ fmtInt s.numRows ++ [32, 108, 105, 110, 101, 115]

/-- The text formatted into `rstatus` by `editorDrawStatusBar`: `"%d/%d"`. -/
def rstatusText (s : EditorConfig) : Str :=
  fmtInt (s.cy + 1) ++ [47] ++ fmtInt s.numRows

/-- Function `editorDrawStatusBar`: the buffer `ab` after the call. -/
def editorDrawStatusBar (s : EditorConfig) (ab : Str) : Str :=
  let ab1 := ab ++ INVERT_COLORS_CMD
  let status := snprintfBuf KILO_STATUS_SIZE (statusText s)
  let rstatus := snprintfBuf KILO_STATUS_SIZE (rstatusText s)
  let len0 : Int := (statusText s).length
  let rlen : Int := (rstatusText s).length
  let len : Int := if len0 > s.screenCols then s.screenCols else len0
  let ab2 := ab1 ++ status
  let ab3 := statusBarLoop s rstatus rlen (s.screenCols - len).toNat len ab2
  ab3 ++ RESET_COLORS_CMD ++ CRLF

/-- Function `editorDrawMessageBar` at clock reading `now`. -/
def editorDrawMessageBar (s : EditorConfig) (now : Int) (ab : Str) : Option Str :=
  let ab1 := ab ++ CLEAR_LINE_CMD
  let msglen0 : Int := min (cstr s.statusMsg).length (KILO_STATUS_SIZE - 1)
  let msglen : Int := if msglen0 > s.screenCols then s.screenCols else msglen0
  if msglen ≠ 0 ∧ now - s.statusMsgTime < 5 then appendFrom ab1 (cstr s.statusMsg) 0 msglen
  else some ab1

/-- The cursor-positioning text `"\x1b[%d;%dH"` that `editorRefreshScreen`
formats into `buf`. -/
def cursorText (s : EditorConfig) : Str :=
  [27, 91] ++ fmtInt ((s.cy - s.rowOff) + 1) ++ [59] ++ fmtInt ((s.rx - s.colOff) + 1) ++ [72]

/-- The buffer that `editorRefreshScreen` builds after `editorScroll`. -/
def composeFrame (s : EditorConfig) (now : Int) : Option Str := do
  let ab0 : Str := HIDE_CURSOR_CMD ++ CURSOR_TOP_LEFT_CMD
  let ab1 ← editorDrawRows s ab0
  let ab2 := editorDrawStatusBar s ab1
  let ab3 ← editorDrawMessageBar s now ab2
  pure (ab3 ++ snprintfBuf 32 (cursorText s) ++ SHOW_CURSOR_CMD)

/-- Function `editorRefreshScreen` at clock reading `now`: the state it
leaves and the buffer it writes to the terminal. -/
def editorRefreshScreen (s : EditorConfig) (now : Int) : Option (EditorConfig × Str) :=
  (editorScroll s).bind (fun s1 => (composeFrame s1 now).map (fun ab => (s1, ab)))

/-- Keys dispatched one after the other, each followed by the `editorScroll`
of the next `editorRefreshScreen`. -/
def runKeys : EditorConfig → List Int → Outcome
  | s, [] => Outcome.running s
  | s, c :: cs =>
    match editorProcessKeypress s c with
    | Outcome.running s1 =>
      (match editorScroll s1 with
       | some s2 => runKeys s2 cs
       | none => Outcome.fault)
    | o => o

/-! ## Init -/

/-- Function `initEditor`: the state of the zero-initialised global after
`initEditor`, for a terminal of `termRows` by `termCols`. -/
def initEditor (termRows termCols : Int) : EditorConfig :=
  { cx := 0, rx := 0, cy := 0, numRows := 0, rowOff := 0, colOff := 0,
    rows := StringArray.nullptr, renderRows := StringArray.nullptr,
    filename := [91, 78, 111, 32, 78, 97, 109, 101, 93],
    statusMsg := [], statusMsgTime := 0,
    screenRows := termRows - 2, screenCols := termCols }

/-! ## Predicates used by the theorems -/

/-- Largest value of an `int`. -/
def INT_MAX : Int := 2147483647

/-- The elements behind a pointer (none for the null pointer). -/
def StringArray.elems : StringArray → List Str
  | StringArray.nullptr => []
  | StringArray.alloc l => l

/-- The document is well formed: `numRows` is a non-negative `int` and both
arrays hold exactly `numRows` rows. -/
def DocWF (s : EditorConfig) : Prop :=
  0 ≤ s.numRows ∧ s.numRows ≤ INT_MAX ∧
  (s.rows.size : Int) = s.numRows ∧ (s.renderRows.size : Int) = s.numRows

/-- Length of `rows[i]`, and 0 when there is no such row. -/
def rowLen (s : EditorConfig) (i : Int) : Int :=
  match s.rows.getI i with
  | some r => (r.length : Int)
  | none => 0

/-- The cursor invariant of the data model: `0 <= cy <= numRows`, and
`0 <= cx <= length(rows[cy])` whenever `cy < numRows`. -/
def CursorInv (s : EditorConfig) : Prop :=
  0 ≤ s.cy ∧ s.cy ≤ s.numRows ∧ (s.cy < s.numRows → 0 ≤ s.cx ∧ s.cx ≤ rowLen s s.cy)

instance (s : EditorConfig) : Decidable (DocWF s) :=
  inferInstanceAs (Decidable (0 ≤ s.numRows ∧ s.numRows ≤ INT_MAX ∧
    (s.rows.size : Int) = s.numRows ∧ (s.renderRows.size : Int) = s.numRows))

instance (s : EditorConfig) : Decidable (CursorInv s) :=
  inferInstanceAs (Decidable (0 ≤ s.cy ∧ s.cy ≤ s.numRows ∧
    (s.cy < s.numRows → 0 ≤ s.cx ∧ s.cx ≤ rowLen s s.cy)))

/-- A state over the three-row document `a<TAB>b`, `hello`, and an empty row,
with cursor, offsets and screen size as given. -/
def threeRowState (cx cy rowOff colOff screenRows screenCols : Int) : EditorConfig :=
  { cx := cx, cy := cy, rx := 0, rowOff := rowOff, colOff := colOff,
    screenRows := screenRows, screenCols := screenCols, numRows := 3,
    rows := StringArray.alloc [[97, 9, 98], [104, 101, 108, 108, 111], []],
    renderRows := StringArray.alloc [[97, 32, 32, 32, 32, 98], [104, 101, 108, 108, 111], []],
    filename := [], statusMsg := [], statusMsgTime := 0 }

/-- A state over a document of fifty one-character rows, cursor at the origin,
with `screenRows = 20` and `rowOff = 0`. -/
def fiftyRowState : EditorConfig :=
  { cx := 0, cy := 0, rx := 0, rowOff := 0, colOff := 0,
    screenRows := 20, screenCols := 80, numRows := 50,
    rows := StringArray.alloc (List.replicate 50 [120]),
    renderRows := StringArray.alloc (List.replicate 50 [120]),
    filename := [], statusMsg := [], statusMsgTime := 0 }

/-- The state an `Outcome` carries, when the function returned. -/
def Outcome.state? : Outcome → Option EditorConfig
  | Outcome.running s => some s
  | _ => none

/-- Everything but the cursor `(cx, cy)` is the same in both states. -/
def SameButCursor (s t : EditorConfig) : Prop :=
  t.rx = s.rx ∧ t.rowOff = s.rowOff ∧ t.colOff = s.colOff ∧ t.screenRows = s.screenRows ∧
  t.screenCols = s.screenCols ∧ t.numRows = s.numRows ∧ t.rows = s.rows ∧
  t.renderRows = s.renderRows ∧ t.filename = s.filename ∧ t.statusMsg = s.statusMsg ∧
  t.statusMsgTime = s.statusMsgTime

/-- Closed form of the loop of `editorUpdateRow` (proved equal to it in
`renderString_eq`): every tab replaced by `KILO_TAB`. -/
def expandTabs : Str → Str
  | [] => []
  | c :: t => if c = 9 then KILO_TAB ++ expandTabs t else c :: expandTabs t

/-- The states reached from the empty document of `initEditor` by
`editorAppendRow`, `editorRowInsertChar` and `editorInsertChar`, with the
cursor placed anywhere in between. -/
inductive DocReachable : EditorConfig → Prop where
  | init (termRows termCols : Int) : DocReachable (initEditor termRows termCols)
  | appendRow (s t : EditorConfig) (row : Str) :
      DocReachable s → editorAppendRow s row = some t → DocReachable t
  | rowInsertChar (s t : EditorConfig) (rowIdx : Nat) (pos : Int) (c : Nat) :
      DocReachable s → editorRowInsertChar s rowIdx pos c = some t → DocReachable t
  | insertChar (s t : EditorConfig) (c : Nat) :
      DocReachable s → editorInsertChar s c = some t → DocReachable t
  | cursor (s : EditorConfig) (cx cy : Int) :
      DocReachable s → DocReachable { s with cx := cx, cy := cy }

/-- Rows and render rows are in step: `numRows` rows, and each render row is
the expansion of its row. -/
def DocSync (s : EditorConfig) : Prop :=
  s.numRows = (s.rows.elems.length : Int) ∧
  s.renderRows.elems = s.rows.elems.map expandTabs

instance (s : EditorConfig) : Decidable (DocSync s) :=
  inferInstanceAs (Decidable (s.numRows = (s.rows.elems.length : Int) ∧
    s.renderRows.elems = s.rows.elems.map expandTabs))

/-- The state of `initEditor 24 80` after `editorAppendRow` of `a<TAB>`. -/
def afterAppend : EditorConfig :=
  { initEditor 24 80 with
    numRows := 1,
    rows := StringArray.alloc [[97, 9]],
    renderRows := StringArray.alloc [[97, 32, 32, 32, 32]] }

/-- The state `afterAppend` after `editorInsertChar` of a tab. -/
def afterInsert : EditorConfig :=
  { afterAppend with
    cx := 1,
    rows := StringArray.alloc [[9, 97, 9]],
    renderRows := StringArray.alloc [[32, 32, 32, 32, 97, 32, 32, 32, 32]] }

/-- The characters of a render row shown on a screen line: those at render
columns `[colOff, colOff + screenCols)`. -/
def visibleSlice (r : Str) (colOff screenCols : Int) : Str :=
  (r.drop colOff.toNat).take screenCols.toNat

/-- Text of screen line `i` of a non-empty document, without the trailing
controls: the visible slice of render row `rowOff + i`, or `~` past the last
row. -/
def rowLineText (s : EditorConfig) (i : Nat) : Str :=
  if ((i : Int) + s.rowOff) ≥ s.numRows then [126]
  else
    match s.renderRows.getI ((i : Int) + s.rowOff) with
    | some r => visibleSlice r s.colOff s.screenCols
    | none => []

/-- Length of the banner as drawn: the 28 characters of the welcome text, cut
to `screenCols`. -/
def bannerLen (s : EditorConfig) : Int :=
  if (28 : Int) > s.screenCols then s.screenCols else 28

/-- Text of the banner line: `(screenCols - bannerLen) / 2` columns of padding
(a `~` and then spaces) followed by the banner. -/
def bannerLine (s : EditorConfig) : Str :=
  (if (s.screenCols - bannerLen s) / 2 ≠ 0
    then 126 :: List.replicate (((s.screenCols - bannerLen s) / 2 - 1).toNat) 32
    else []) ++ welcomeText.take (bannerLen s).toNat

/-- Text of screen line `i` of an empty document: the banner on line
`screenRows / 3`, `~` elsewhere. -/
def emptyDocLineText (s : EditorConfig) (i : Nat) : Str :=
  if (i : Int) = s.screenRows / 3 then bannerLine s else [126]

/-- Closed form of two consecutive `if` statements of `editorScroll` on one
offset: the offset `off` after it is moved so that `pos` falls in
`[off, off + size)`. -/
def clampOff (off pos size : Int) : Int :=
  if pos ≥ (if pos < off then pos else off) + size then pos - size + 1
  else (if pos < off then pos else off)

/-- The state of `initEditor 24 80` after loading a file whose only line is
`a`. -/
def oneRowState : EditorConfig :=
  { initEditor 24 80 with
    numRows := 1,
    rows := StringArray.alloc [[97]],
    renderRows := StringArray.alloc [[97]] }

/-- What the main loop keeps true: the document is well formed, the cursor
invariant holds, the cursor is at column 0 on the trailing row, `rowOff` is not
negative and the screen has at least one text line. -/
def LoopInv (s : EditorConfig) : Prop :=
  DocWF s ∧ CursorInv s ∧ (s.cy = s.numRows → s.cx = 0) ∧ 0 ≤ s.rowOff ∧ 1 ≤ s.screenRows

/-- The states at the end of start-up: `initEditor` on a terminal with at
least three rows, then `editorAppendRow` for each line of the file, `numRows`
staying within an `int`. -/
inductive Loaded : EditorConfig → Prop where
  | init (termRows termCols : Int) : 1 ≤ termRows - 2 → Loaded (initEditor termRows termCols)
  | append (s t : EditorConfig) (row : Str) :
      Loaded s → editorAppendRow s row = some t → t.numRows ≤ INT_MAX → Loaded t

/-- The states at the top of the main loop: a loaded state, or the state that
a dispatched key returned after the `editorScroll` of the refresh before it
(`numRows` staying within an `int`).  A dispatch that does not return a state
(Quit, or a fault) ends the run. -/
inductive LoopReachable : EditorConfig → Prop where
  | loaded (s : EditorConfig) : Loaded s → LoopReachable s
  | step (s u t : EditorConfig) (c : Int) :
      LoopReachable s → editorScroll s = some u →
      editorProcessKeypress u c = Outcome.running t → t.numRows ≤ INT_MAX → LoopReachable t

/-- The state of `initEditor 4 80` (a four-row terminal, `screenRows = 2`)
after loading the file `hello`, two empty lines, `world`, `x`. -/
def fiveRowLoaded : EditorConfig :=
  { initEditor 4 80 with
    numRows := 5,
    rows := StringArray.alloc
      [[104, 101, 108, 108, 111], [], [], [119, 111, 114, 108, 100], [120]],
    renderRows := StringArray.alloc
      [[104, 101, 108, 108, 111], [], [], [119, 111, 114, 108, 100], [120]] }

/-- The state `fiveRowLoaded` after the key End and the refresh that follows:
the cursor is at the end of `hello`. -/
def fiveRowAtEnd : EditorConfig :=
  { fiveRowLoaded with cx := 5, rx := 5 }

/-- The state of `initEditor 24 80`, started without a file, after the keys
`x` and Down, each followed by the refresh: the document is the single row `x`
and the cursor is on the trailing row at column 0. -/
def typedThenDown : EditorConfig :=
  { initEditor 24 80 with
    cy := 1,
    numRows := 1,
    rows := StringArray.alloc [[120]],
    renderRows := StringArray.alloc [[120]] }

/-- The state of `initEditor 2 80` (a two-row terminal, `screenRows = 0`) after
loading a file whose only line is `hello`. -/
def helloLoaded : EditorConfig :=
  { initEditor 2 80 with
    numRows := 1,
    rows := StringArray.alloc [[104, 101, 108, 108, 111]],
    renderRows := StringArray.alloc [[104, 101, 108, 108, 111]] }

/-- The state `helloLoaded` after the keys End and PageUp, each followed by the
refresh: the cursor is on the trailing row at column 5. -/
def helloPastEnd : EditorConfig :=
  { helloLoaded with cx := 5, cy := 1, rowOff := 2 }

/-! ## Key decoder: lemmas -/

theorem editorReadKey_skip_timeouts (n : Nat) (l : List ReadResult) :
    editorReadKey (List.replicate n ReadResult.timeout ++ l) = editorReadKey l := by
  induction n with
  | zero => simp
  | succ k ih => simp [List.replicate_succ, editorReadKey, ih]

theorem editorReadKey_esc (l : List ReadResult) :
    editorReadKey (ReadResult.byte 27 :: l) = some (editorReadSequenceKey l) := by
  simp [editorReadKey]

/-- C1: whenever the escape byte is followed by one of the defined sequences
(after any number of timed-out reads, and whatever follows), `editorReadKey`
returns exactly the key the table gives and leaves the rest of the input. -/
theorem editorReadKey_defined_sequences (n : Nat) (rest : List ReadResult)
    (p : List Nat × Int) (hp : p ∈ specEscapeTable) :
    editorReadKey (List.replicate n ReadResult.timeout ++
        ReadResult.byte 27 :: (p.1.map ReadResult.byte ++ rest)) = some (p.2, rest) := by
  rw [editorReadKey_skip_timeouts, editorReadKey_esc]
  simp only [specEscapeTable, List.mem_cons, List.mem_singleton, List.not_mem_nil,
    or_false] at hp
  rcases hp with h | h | h | h | h | h | h | h | h | h | h | h | h | h | h <;>
    subst h <;> rfl

theorem editorReadKey_defined_sequences_witness :
    editorReadKey [ReadResult.timeout, ReadResult.timeout, ReadResult.byte 27,
        ReadResult.byte 91, ReadResult.byte 51, ReadResult.byte 126, ReadResult.byte 120]
      = some (DEL_KEY, [ReadResult.byte 120]) :=
  editorReadKey_defined_sequences 2 [ReadResult.byte 120] ([91, 51, 126], DEL_KEY)
    (by decide)

theorem letterKey_eq_none (b : Nat) (h1 : ¬ 65 = b) (h2 : ¬ 66 = b) (h3 : ¬ 67 = b)
    (h4 : ¬ 68 = b) (h5 : ¬ 72 = b) (h6 : ¬ 70 = b) : letterKey b = none := by
  simp [letterKey, Ne.symm h1, Ne.symm h2, Ne.symm h3, Ne.symm h4, Ne.symm h5, Ne.symm h6]

theorem numberKey_eq_none (b : Nat) (h1 : ¬ 49 = b) (h2 : ¬ 51 = b) (h3 : ¬ 52 = b)
    (h4 : ¬ 53 = b) (h5 : ¬ 54 = b) (h6 : ¬ 55 = b) (h7 : ¬ 56 = b) :
    numberKey b = none := by
  simp [numberKey, Ne.symm h1, Ne.symm h2, Ne.symm h3, Ne.symm h4, Ne.symm h5,
    Ne.symm h6, Ne.symm h7]

theorem oKey_eq_none (b : Nat) (h1 : ¬ 72 = b) (h2 : ¬ 70 = b) : oKey b = none := by
  simp [oKey, Ne.symm h1, Ne.symm h2]

theorem editorReadSequenceKey_undefined (tail : List ReadResult)
    (h : ∀ p ∈ specEscapeTable, ¬ (p.1.map ReadResult.byte <+: tail)) :
    (editorReadSequenceKey tail).1 = ESC := by
  simp only [specEscapeTable, List.mem_cons, List.mem_singleton, List.not_mem_nil,
    or_false, forall_eq_or_imp, forall_eq, List.map_cons, List.map_nil] at h
  rcases tail with _ | ⟨r0, t0⟩
  · rfl
  rcases r0 with b0 | _ | _
  rotate_left
  · rfl
  · rfl
  rcases t0 with _ | ⟨r1, t1⟩
  · rfl
  rcases r1 with b1 | _ | _
  rotate_left
  · rfl
  · rfl
  simp only [List.cons_prefix_cons, ReadResult.byte.injEq, List.nil_prefix, and_true] at h
  by_cases h91 : b0 = 91
  · subst h91
    simp only [true_and, Nat.reduceEqDiff, false_and, not_false_eq_true] at h
    obtain ⟨a1, a2, a3, a4, a5, a7, n1, n7, n3, n4, n8, n5, n6⟩ := h
    have hl : letterKey b1 = none := letterKey_eq_none b1 a1 a2 a3 a4 a5 a7
    by_cases hd : 48 ≤ b1 ∧ b1 ≤ 57
    · rcases t1 with _ | ⟨r2, t2⟩
      · simp [editorReadSequenceKey, read1, hd]
      rcases r2 with b2 | _ | _
      · by_cases h126 : b2 = 126
        · subst h126
          simp only [List.cons_prefix_cons, List.nil_prefix, and_true] at n1 n7 n3 n4 n8 n5 n6
          have hn : numberKey b1 = none := numberKey_eq_none b1 n1 n3 n4 n5 n6 n7 n8
          simp [editorReadSequenceKey, read1, hd, hn, hl]
        · simp [editorReadSequenceKey, read1, hd, h126, hl]
      · simp [editorReadSequenceKey, read1, hd]
      · simp [editorReadSequenceKey, read1, hd]
    · simp [editorReadSequenceKey, read1, hd, hl]
  · by_cases h79 : b0 = 79
    · subst h79
      simp only [true_and, Nat.reduceEqDiff, false_and, not_false_eq_true, and_true] at h
      obtain ⟨o1, o2⟩ := h
      have ho : oKey b1 = none := oKey_eq_none b1 o1 o2
      simp [editorReadSequenceKey, read1, ho]
    · simp [editorReadSequenceKey, read1, h91, h79]

/-- C2: whenever what follows the escape byte does not start with a sequence of
the defined table (an unknown first or second byte, a digit sequence with a
wrong digit or a wrong last byte, or a sequence cut short by a read that
returns no byte), `editorReadKey` returns the literal escape code 27. -/
theorem editorReadKey_undefined_sequence (n : Nat) (tail : List ReadResult)
    (h : ∀ p ∈ specEscapeTable, ¬ (p.1.map ReadResult.byte <+: tail)) :
    ∃ rest, editorReadKey (List.replicate n ReadResult.timeout ++
        ReadResult.byte 27 :: tail) = some (27, rest) := by
  rw [editorReadKey_skip_timeouts, editorReadKey_esc]
  refine ⟨(editorReadSequenceKey tail).2, ?_⟩
  have h1 := editorReadSequenceKey_undefined tail h
  rw [← show ESC = (27 : Int) from rfl, ← h1]

theorem editorReadKey_undefined_sequence_witness :
    ∃ rest, editorReadKey [ReadResult.timeout, ReadResult.byte 27, ReadResult.byte 91,
        ReadResult.byte 50, ReadResult.byte 126] = some (27, rest) :=
  editorReadKey_undefined_sequence 1
    [ReadResult.byte 91, ReadResult.byte 50, ReadResult.byte 126] (by decide)

/-! ## Tab expansion: lemmas -/

theorem expandTabs_append (a b : Str) : expandTabs (a ++ b) = expandTabs a ++ expandTabs b := by
  induction a with
  | nil => rfl
  | cons c t ih =>
    by_cases hc : c = 9 <;> simp [expandTabs, hc, ih]

theorem expandTabs_no_tab (l : Str) (h : 9 ∉ l) : expandTabs l = l := by
  induction l with
  | nil => rfl
  | cons c t ih =>
    simp only [List.mem_cons, not_or] at h
    have hc : ¬ c = 9 := fun e => h.1 e.symm
    simp [expandTabs, hc, ih h.2]

theorem findFrom_spec (l : Str) (pos : Nat) :
    (findFrom 9 l pos = none ∧ 9 ∉ l) ∨
    ∃ pre post, l = pre ++ 9 :: post ∧ 9 ∉ pre ∧ findFrom 9 l pos = some (pos + pre.length) := by
  induction l generalizing pos with
  | nil => left; simp [findFrom]
  | cons c t ih =>
    by_cases hc : c = 9
    · right
      exact ⟨[], t, by simp [hc], by simp, by simp [findFrom, hc]⟩
    · rcases ih (pos + 1) with ⟨h1, h2⟩ | ⟨pre, post, h1, h2, h3⟩
      · left
        refine ⟨by simp [findFrom, hc, h1], ?_⟩
        simp only [List.mem_cons, not_or]
        exact ⟨fun e => hc e.symm, h2⟩
      · right
        refine ⟨c :: pre, post, by simp [h1], ?_, ?_⟩
        · simp only [List.mem_cons, not_or]
          exact ⟨fun e => hc e.symm, h2⟩
        · simp only [findFrom, hc, if_false, h3, List.length_cons]
          congr 1
          omega

theorem updateRowLoop_eq (fuel : Nat) (a b : Str) (h : List.count 9 b < fuel) :
    updateRowLoop fuel (a ++ b) a.length = some (a ++ expandTabs b) := by
  induction fuel generalizing a b with
  | zero => omega
  | succ n ih =>
    have hdrop : (a ++ b).drop a.length = b := by simp
    rcases findFrom_spec b a.length with ⟨h1, h2⟩ | ⟨pre, post, h1, h2, h3⟩
    · simp [updateRowLoop, strFind, hdrop, h1, expandTabs_no_tab b h2]
    · subst h1
      have hcnt : List.count 9 post < n := by
        simp only [List.count_append, List.count_cons_self] at h
        omega
      have hrep : strReplace1 (a ++ (pre ++ 9 :: post)) (a.length + pre.length) KILO_TAB
          = (a ++ pre ++ KILO_TAB) ++ post := by
        have e1 : a ++ (pre ++ 9 :: post) = (a ++ pre) ++ 9 :: post := by simp
        have e2 : a.length + pre.length = (a ++ pre).length := by simp
        have e3 : ((a ++ pre) ++ 9 :: post).drop ((a ++ pre).length + 1) = post := by
          rw [show (a ++ pre).length + 1 = ((a ++ pre) ++ [9]).length by
                simp only [List.length_append, List.length_singleton],
            show (a ++ pre) ++ 9 :: post = ((a ++ pre) ++ [9]) ++ post by simp,
            List.drop_left]
        rw [strReplace1, e1, e2, List.take_left, e3]
      have hidx : a.length + pre.length + KILO_TAB_LEN = (a ++ pre ++ KILO_TAB).length := by
        simp [KILO_TAB_LEN]
        omega
      simp only [updateRowLoop, strFind, hdrop, h3, hrep, hidx]
      rw [ih (a ++ pre ++ KILO_TAB) post hcnt]
      simp [expandTabs_append, expandTabs_no_tab pre h2, expandTabs]

theorem renderString_eq (row : Str) : renderString row = some (expandTabs row) := by
  have h := updateRowLoop_eq (row.length + 1) [] row
    (Nat.lt_succ_of_le (List.count_le_length 9 row))
  simpa [renderString] using h

/-! ## Column mapping: lemmas -/

theorem expandTabs_singleton_length (c : Nat) :
    ((expandTabs [c]).length : Int) = if c = 9 then 4 else 1 := by
  by_cases hc : c = 9 <;> simp [expandTabs, hc, KILO_TAB]

theorem editorRowCxToRx_nat (row : Str) (n : Nat) (h : n ≤ row.length) :
    editorRowCxToRx row (n : Int) = some ((expandTabs (row.take n)).length : Int) := by
  induction n with
  | zero => simp [editorRowCxToRx, expandTabs]
  | succ k ih =>
    have hk : k < row.length := h
    have ih1 := ih (Nat.le_of_lt hk)
    simp only [editorRowCxToRx, Int.toNat_ofNat] at ih1 ⊢
    rw [List.range_succ, List.foldlM_append, ih1]
    have hat : strAt row k = some row[k] := by
      simp [strAt, hk]
    have htake : row.take (k + 1) = row.take k ++ [row[k]] := by
      rw [List.take_succ, List.getElem?_eq_getElem hk]
      rfl
    rw [htake, expandTabs_append, List.length_append, Nat.cast_add,
      expandTabs_singleton_length]
    by_cases hc : row[k] = 9
    · simp [hat, hc, KILO_TAB_LEN, KILO_TAB]
      omega
    · simp [hat, hc]

theorem expandTabs_length_mono (row : Str) (a b : Nat) (hab : a ≤ b) :
    (expandTabs (row.take a)).length ≤ (expandTabs (row.take b)).length := by
  obtain ⟨d, rfl⟩ := Nat.exists_eq_add_of_le hab
  rw [List.take_add, expandTabs_append, List.length_append]
  omega

/-- C5: on every row, `editorRowCxToRx` is defined and non-decreasing on the
columns `0 <= a <= b <= length(row)`, and at the full length it equals the
length of the render row that `editorUpdateRow` builds. -/
theorem editorRowCxToRx_monotone_and_total (row : Str) (a b : Int)
    (ha : 0 ≤ a) (hab : a ≤ b) (hb : b ≤ (row.length : Int)) :
    ∃ ra rb render,
      editorRowCxToRx row a = some ra ∧ editorRowCxToRx row b = some rb ∧ ra ≤ rb ∧
      renderString row = some render ∧
      editorRowCxToRx row (row.length : Int) = some (render.length : Int) := by
  obtain ⟨an, rfl⟩ := Int.eq_ofNat_of_zero_le ha
  obtain ⟨bn, rfl⟩ := Int.eq_ofNat_of_zero_le (le_trans ha hab)
  have hab1 : an ≤ bn := by exact_mod_cast hab
  have hb1 : bn ≤ row.length := by exact_mod_cast hb
  refine ⟨_, _, _, editorRowCxToRx_nat row an (le_trans hab1 hb1),
    editorRowCxToRx_nat row bn hb1, ?_, renderString_eq row, ?_⟩
  · exact_mod_cast expandTabs_length_mono row an bn hab1
  · rw [editorRowCxToRx_nat row row.length le_rfl, List.take_length]

theorem editorRowCxToRx_monotone_and_total_witness :
    ∃ ra rb render,
      editorRowCxToRx [97, 9, 98, 9] 1 = some ra ∧ editorRowCxToRx [97, 9, 98, 9] 3 = some rb ∧
      ra ≤ rb ∧ renderString [97, 9, 98, 9] = some render ∧
      editorRowCxToRx [97, 9, 98, 9] (([97, 9, 98, 9] : Str).length : Int)
        = some (render.length : Int) :=
  editorRowCxToRx_monotone_and_total [97, 9, 98, 9] 1 3 (by decide) (by decide) (by decide)

/-- C6 (as stated, refuted): in the row `a<TAB>b` the tab starts at render
column 1; its expansion is four spaces, so the render column just after it is
5, which is not a multiple of the tab width, and `editorRowCxToRx` advances by
4 over it although the next tab stop is 3 columns away. -/
theorem tab_stop_counterexample :
    renderString [97, 9, 98] = some [97, 32, 32, 32, 32, 98] ∧
    editorRowCxToRx [97, 9, 98] 1 = some 1 ∧
    editorRowCxToRx [97, 9, 98] 2 = some 5 ∧
    ¬ (∃ r : Int, editorRowCxToRx [97, 9, 98] 2 = some r ∧ r % (KILO_TAB_LEN : Int) = 0) ∧
    ¬ (∃ r0 r1 : Int, editorRowCxToRx [97, 9, 98] 1 = some r0 ∧
        editorRowCxToRx [97, 9, 98] 2 = some r1 ∧
        r1 - r0 = (KILO_TAB_LEN : Int) - r0 % (KILO_TAB_LEN : Int)) := by
  have h1 : editorRowCxToRx [97, 9, 98] 1 = some 1 := by decide
  have h2 : editorRowCxToRx [97, 9, 98] 2 = some 5 := by decide
  refine ⟨by decide, h1, h2, ?_, ?_⟩
  · rintro ⟨r, hr, hm⟩
    rw [h2] at hr
    cases hr
    revert hm
    decide
  · rintro ⟨r0, r1, hr0, hr1, hm⟩
    rw [h1] at hr0
    rw [h2] at hr1
    cases hr0
    cases hr1
    revert hm
    decide

/-- C6 (amended): every tab of a row is replaced in the render row by exactly
the four spaces of `KILO_TAB`, whatever the column where it starts: the render
row is the expansion of what precedes the tab, four spaces, and the expansion
of what follows, and `editorRowCxToRx` advances by exactly 4 over the tab,
from the length of the expanded part before it. -/
theorem tab_expands_to_four_spaces (row : Str) (k : Nat) (ht : row[k]? = some 9) :
    ∃ pre post,
      renderString (row.take k) = some pre ∧
      renderString (row.drop (k + 1)) = some post ∧
      renderString row = some (pre ++ [32, 32, 32, 32] ++ post) ∧
      editorRowCxToRx row (k : Int) = some (pre.length : Int) ∧
      editorRowCxToRx row ((k : Int) + 1) = some ((pre.length : Int) + 4) := by
  obtain ⟨hk, hget⟩ := List.getElem?_eq_some_iff.mp ht
  have hsplit : row = row.take k ++ 9 :: row.drop (k + 1) := by
    rw [← hget, ← List.drop_eq_getElem_cons hk, List.take_append_drop]
  have htake : row.take (k + 1) = row.take k ++ [9] := by
    rw [List.take_succ, ht]
    rfl
  refine ⟨expandTabs (row.take k), expandTabs (row.drop (k + 1)), renderString_eq _,
    renderString_eq _, ?_, editorRowCxToRx_nat row k (Nat.le_of_lt hk), ?_⟩
  · rw [renderString_eq]
    conv_lhs => rw [hsplit]
    simp [expandTabs_append, expandTabs, KILO_TAB]
  · have h := editorRowCxToRx_nat row (k + 1) hk
    rw [htake, expandTabs_append] at h
    simpa [expandTabs, KILO_TAB] using h

theorem tab_expands_to_four_spaces_witness :
    ∃ pre post,
      renderString (([97, 9, 98] : Str).take 1) = some pre ∧
      renderString (([97, 9, 98] : Str).drop (1 + 1)) = some post ∧
      renderString [97, 9, 98] = some (pre ++ [32, 32, 32, 32] ++ post) ∧
      editorRowCxToRx [97, 9, 98] ((1 : Nat) : Int) = some (pre.length : Int) ∧
      editorRowCxToRx [97, 9, 98] (((1 : Nat) : Int) + 1) = some ((pre.length : Int) + 4) :=
  tab_expands_to_four_spaces [97, 9, 98] 1 (by decide)

/-! ## Array access: lemmas -/

theorem StringArray.getI_isSome (a : StringArray) (i : Int) (h0 : 0 ≤ i)
    (h1 : i < (a.size : Int)) : ∃ r, a.getI i = some r := by
  obtain ⟨n, rfl⟩ := Int.eq_ofNat_of_zero_le h0
  have hn : n < a.size := by exact_mod_cast h1
  cases a with
  | nullptr => simp [StringArray.size] at hn
  | alloc l =>
    simp only [StringArray.size] at hn
    exact ⟨l[n], by simp [StringArray.getI, StringArray.get?, hn]⟩

theorem rowLen_of_getI (s : EditorConfig) (i : Int) (r : Str) (h : s.rows.getI i = some r) :
    rowLen s i = (r.length : Int) := by
  simp [rowLen, h]

theorem rowLen_nonneg (s : EditorConfig) (i : Int) : 0 ≤ rowLen s i := by
  unfold rowLen
  split
  · exact Int.natCast_nonneg _
  · exact le_rfl

/-! ## Viewport: lemmas -/

theorem scrollRx_total (s : EditorConfig) (hwf : DocWF s) (hc : CursorInv s) :
    ∃ rx, scrollRx s = some { s with rx := rx } := by
  obtain ⟨hn, _, hrows, _⟩ := hwf
  obtain ⟨hcy0, hcy1, hcx⟩ := hc
  by_cases hlt : s.cy < s.numRows
  · obtain ⟨r, hr⟩ := s.rows.getI_isSome s.cy hcy0 (by rw [hrows]; exact hlt)
    obtain ⟨hcx0, hcx1⟩ := hcx hlt
    rw [rowLen_of_getI s s.cy r hr] at hcx1
    obtain ⟨n, hn⟩ := Int.eq_ofNat_of_zero_le hcx0
    have hnl : n ≤ r.length := by rw [hn] at hcx1; exact_mod_cast hcx1
    have hrx : editorRowCxToRx r s.cx = some ((expandTabs (r.take n)).length : Int) := by
      rw [hn]
      exact editorRowCxToRx_nat r n hnl
    exact ⟨((expandTabs (r.take n)).length : Int), by simp [scrollRx, hlt, hr, hrx]⟩
  · exact ⟨0, by simp [scrollRx, hlt]⟩

theorem scrollOffsets_in_viewport (s : EditorConfig) (hr : 1 ≤ s.screenRows)
    (hcols : 1 ≤ s.screenCols) :
    (scrollOffsets s).rowOff ≤ (scrollOffsets s).cy ∧
    (scrollOffsets s).cy < (scrollOffsets s).rowOff + (scrollOffsets s).screenRows ∧
    (scrollOffsets s).colOff ≤ (scrollOffsets s).rx ∧
    (scrollOffsets s).rx < (scrollOffsets s).colOff + (scrollOffsets s).screenCols ∧
    (scrollOffsets s).cx = s.cx ∧ (scrollOffsets s).cy = s.cy ∧ (scrollOffsets s).rx = s.rx ∧
    (scrollOffsets s).screenRows = s.screenRows ∧
    (scrollOffsets s).screenCols = s.screenCols := by
  simp only [scrollOffsets]
  split_ifs <;> simp_all <;> omega

theorem scrollRx_frame (s u : EditorConfig) (h : scrollRx s = some u) :
    ∃ rx, u = { s with rx := rx } := by
  unfold scrollRx at h
  simp only at h
  split_ifs at h with hlt
  · simp only [Option.bind_eq_bind, Option.bind_eq_some, Option.pure_def,
      Option.some.injEq] at h
    obtain ⟨_, _, rx, _, rfl⟩ := h
    exact ⟨rx, rfl⟩
  · simp only [Option.pure_def, Option.some.injEq] at h
    exact ⟨0, h.symm⟩

/-- C4: for every editor state with `screenRows >= 1` and `screenCols >= 1`,
whatever `rowOff` and `colOff` were, every state that `editorScroll` returns
has the same cursor and screen size and satisfies
`rowOff <= cy < rowOff + screenRows` and `colOff <= rx < colOff + screenCols`;
and `editorScroll` does return when the document is well formed and the cursor
invariant holds. -/
theorem editorScroll_cursor_in_viewport (s : EditorConfig) (hr : 1 ≤ s.screenRows)
    (hcols : 1 ≤ s.screenCols) :
    (∀ t, editorScroll s = some t → t.cx = s.cx ∧ t.cy = s.cy ∧
      t.screenRows = s.screenRows ∧ t.screenCols = s.screenCols ∧
      t.rowOff ≤ t.cy ∧ t.cy < t.rowOff + t.screenRows ∧
      t.colOff ≤ t.rx ∧ t.rx < t.colOff + t.screenCols) ∧
    (DocWF s → CursorInv s → ∃ t, editorScroll s = some t) := by
  constructor
  · intro t ht
    simp only [editorScroll, Option.map_eq_some'] at ht
    obtain ⟨u, hu, rfl⟩ := ht
    obtain ⟨rx, rfl⟩ := scrollRx_frame s u hu
    obtain ⟨h1, h2, h3, h4, h5, h6, _, h8, h9⟩ :=
      scrollOffsets_in_viewport { s with rx := rx } hr hcols
    exact ⟨h5, h6, h8, h9, h1, h2, h3, h4⟩
  · intro hwf hc
    obtain ⟨rx, hrx⟩ := scrollRx_total s hwf hc
    exact ⟨scrollOffsets { s with rx := rx }, by simp [editorScroll, hrx]⟩

/-! ## Document buffer: lemmas -/

@[simp] theorem StringArray.get?_alloc (l : List Str) (i : Nat) :
    (StringArray.alloc l).get? i = l[i]? := rfl

@[simp] theorem StringArray.size_alloc (l : List Str) :
    (StringArray.alloc l).size = l.length := rfl

@[simp] theorem StringArray.elems_alloc (l : List Str) :
    (StringArray.alloc l).elems = l := rfl

theorem StringArray.size_eq_elems (a : StringArray) : a.size = a.elems.length := by
  cases a <;> rfl

theorem StringArray.get?_eq_elems (a : StringArray) (i : Nat) : a.get? i = a.elems[i]? := by
  cases a <;> simp [StringArray.get?, StringArray.elems]

theorem StringArray.set?_of_lt (a : StringArray) (i : Nat) (v : Str) (h : i < a.size) :
    a.set? i v = some (StringArray.alloc (a.elems.set i v)) := by
  cases a with
  | nullptr => simp [StringArray.size] at h
  | alloc l =>
    simp only [StringArray.size] at h
    simp [StringArray.set?, StringArray.elems, h]

theorem StringArray.set?_of_ge (a : StringArray) (i : Nat) (v : Str) (h : a.size ≤ i) :
    a.set? i v = none := by
  cases a with
  | nullptr => rfl
  | alloc l =>
    simp only [StringArray.size] at h
    simp [StringArray.set?, Nat.not_lt.mpr h]

theorem StringArray.get?_of_ge (a : StringArray) (i : Nat) (h : a.size ≤ i) :
    a.get? i = none := by
  rw [StringArray.get?_eq_elems, List.getElem?_eq_none]
  rw [← StringArray.size_eq_elems]
  exact h

theorem toUint_of_range (i : Int) (h0 : 0 ≤ i) (h1 : i ≤ INT_MAX) : toUint i = i.toNat := by
  unfold toUint
  unfold INT_MAX at h1
  rw [Int.emod_eq_of_lt h0 (by omega)]

theorem copyRows_alloc (l tmp : List Str) (n : Nat) (hl : n ≤ l.length) (ht : n ≤ tmp.length) :
    copyRows (StringArray.alloc l) n (StringArray.alloc tmp)
      = some (StringArray.alloc (l.take n ++ tmp.drop n)) := by
  induction n with
  | zero => simp [copyRows]
  | succ k ih =>
    have hk : k < l.length := hl
    have hkt : k < tmp.length := ht
    have ih1 := ih (Nat.le_of_lt hk) (Nat.le_of_lt hkt)
    simp only [copyRows] at ih1 ⊢
    rw [List.range_succ, List.foldlM_append, ih1]
    have hlen : (List.take k l).length = k := by
      rw [List.length_take]
      omega
    have htk : List.take (k + 1) l = List.take k l ++ [l[k]] := by
      rw [List.take_succ, List.getElem?_eq_getElem hk]
      rfl
    have hset : (List.take k l ++ List.drop k tmp).set k l[k]
        = List.take (k + 1) l ++ List.drop (k + 1) tmp := by
      rw [List.set_append_right _ _ (by omega), hlen, Nat.sub_self,
        List.drop_eq_getElem_cons hkt, List.set_cons_zero, htk, List.append_assoc,
        List.singleton_append]
    have hlt : k < (List.take k l ++ List.drop k tmp).length := by
      rw [List.length_append, hlen, List.length_drop]
      omega
    have hget : (StringArray.alloc l).get? k = some l[k] := by
      simp [StringArray.get?, List.getElem?_eq_getElem hk]
    have hstep : (StringArray.alloc (List.take k l ++ List.drop k tmp)).set? k l[k]
        = some (StringArray.alloc (List.take (k + 1) l ++ List.drop (k + 1) tmp)) := by
      rw [StringArray.set?, if_pos hlt, hset]
    simp only [List.foldlM_cons, List.foldlM_nil, hget, Option.bind_eq_bind, Option.some_bind,
      hstep, Option.pure_def, Option.bind_some]

theorem reallocStringArray_grow (a : StringArray) (n : Int) (hn : 0 ≤ n)
    (hsize : (a.size : Int) = n) :
    reallocStringArray a n (n + 1) = some (StringArray.alloc (a.elems ++ [[]])) := by
  have h1 : ¬ (n + 1 < 0) := by omega
  obtain ⟨k, rfl⟩ := Int.eq_ofNat_of_zero_le hn
  have hk : a.size = k := by exact_mod_cast hsize
  have hk1 : ((k : Int) + 1).toNat = k + 1 := by omega
  cases a with
  | nullptr =>
    simp only [StringArray.size] at hk
    subst hk
    simp [reallocStringArray, StringArray.elems]
  | alloc l =>
    simp only [StringArray.size] at hk
    subst hk
    simp only [reallocStringArray, h1, if_false, hk1, StringArray.elems]
    rw [if_pos (by omega), Int.toNat_ofNat, copyRows_alloc l _ l.length le_rfl (by simp)]
    have hd : List.drop l.length (List.replicate (l.length + 1) ([] : Str)) = [[]] := by
      rw [List.drop_replicate]
      simp
    rw [List.take_length, hd]

theorem editorUpdateRow_eq (s : EditorConfig) (i : Nat) (row : Str)
    (hget : s.rows.get? i = some row) (hlt : i < s.renderRows.size) :
    editorUpdateRow s i = some { s with
      renderRows := StringArray.alloc (s.renderRows.elems.set i (expandTabs row)) } := by
  simp [editorUpdateRow, hget, renderString_eq, StringArray.set?_of_lt _ _ _ hlt]

theorem StringArray.lt_size_of_get? (a : StringArray) (i : Nat) (row : Str)
    (h : a.get? i = some row) : i < a.size := by
  by_contra hge
  rw [StringArray.get?_of_ge a i (Nat.le_of_not_lt hge)] at h
  cases h

theorem editorRowInsertChar_eq (s : EditorConfig) (i : Nat) (pos : Int) (c : Nat) (row : Str)
    (hget : s.rows.get? i = some row) (hlt : i < s.renderRows.size) :
    editorRowInsertChar s i pos c = some { s with
      rows := StringArray.alloc (s.rows.elems.set i (strInsert row (clampAt row pos).toNat c)),
      renderRows := StringArray.alloc
        (s.renderRows.elems.set i (expandTabs (strInsert row (clampAt row pos).toNat c))) } := by
  have hi : i < s.rows.size := s.rows.lt_size_of_get? i row hget
  have hi2 : i < s.rows.elems.length := by rw [← StringArray.size_eq_elems]; exact hi
  simp only [editorRowInsertChar, hget, StringArray.set?_of_lt _ _ _ hi, Option.bind_eq_bind,
    Option.some_bind]
  simp [editorUpdateRow, renderString_eq, StringArray.get?, hi2,
    StringArray.set?_of_lt _ _ _ hlt]

theorem editorAppendRow_eq (s : EditorConfig) (row : Str) (hwf : DocWF s) :
    editorAppendRow s row = some { s with
      rows := StringArray.alloc (s.rows.elems ++ [row]),
      renderRows := StringArray.alloc (s.renderRows.elems ++ [expandTabs row]),
      numRows := s.numRows + 1 } := by
  obtain ⟨h0, hmax, hrows, hrend⟩ := hwf
  have hlen1 : s.numRows.toNat = s.rows.elems.length := by
    rw [← StringArray.size_eq_elems]
    omega
  have hlen2 : s.numRows.toNat = s.renderRows.elems.length := by
    rw [← StringArray.size_eq_elems]
    omega
  have hneg : ¬ s.numRows < 0 := by omega
  have hset : (StringArray.alloc (s.rows.elems ++ [[]])).setI s.numRows row
      = some (StringArray.alloc (s.rows.elems ++ [row])) := by
    simp [StringArray.setI, hneg, StringArray.set?, hlen1]
  simp only [editorAppendRow, reallocStringArray_grow s.rows s.numRows h0 hrows,
    reallocStringArray_grow s.renderRows s.numRows h0 hrend, hset, Option.bind_eq_bind,
    Option.some_bind, toUint_of_range s.numRows h0 hmax]
  rw [editorUpdateRow_eq _ _ row]
  · have hl : s.rows.elems.length = s.renderRows.elems.length := by omega
    simp only [Option.some_bind, hlen2, StringArray.elems, Option.some.injEq]
    rw [List.set_append_right _ _ le_rfl]
    simp
  · simp [StringArray.get?, hlen1]
  · simp [StringArray.size, hlen2]

theorem clampAt_toNat (row : Str) (pos : Int) :
    (clampAt row pos).toNat
      = if 0 ≤ pos ∧ pos ≤ (row.length : Int) then pos.toNat else row.length := by
  unfold clampAt
  by_cases h : pos < 0 ∨ pos > (row.length : Int)
  · rw [if_pos h, if_neg (by omega)]
    simp
  · rw [if_neg h, if_pos (by omega)]

theorem clampAt_toNat_le (row : Str) (pos : Int) : (clampAt row pos).toNat ≤ row.length := by
  rw [clampAt_toNat]
  split_ifs with h
  · omega
  · exact le_rfl

theorem strInsert_length (row : Str) (p : Nat) (c : Nat) (hp : p ≤ row.length) :
    (strInsert row p c).length = row.length + 1 := by
  simp only [strInsert, List.length_append, List.length_take, List.length_cons,
    List.length_drop]
  omega

/-- C9: for every valid row index `r` of a well-formed document, every integer
column `pos` (the parameter `at`) and every character `c`,
`editorRowInsertChar` returns; row `r` becomes the old row with `c` inserted at
position `p`, where `p = pos` when `0 <= pos <= length(row)` and
`p = length(row)` otherwise (negative columns included), so it is one character
longer; every other row and render row is unchanged, render row `r` becomes
the expansion of the new row, and `numRows` and the cursor are untouched. -/
theorem editorRowInsertChar_spec (s : EditorConfig) (r : Nat) (pos : Int) (c : Nat)
    (hwf : DocWF s) (hr : (r : Int) < s.numRows) :
    ∃ row p t, s.rows.get? r = some row ∧
      p = (if 0 ≤ pos ∧ pos ≤ (row.length : Int) then pos.toNat else row.length) ∧
      editorRowInsertChar s r pos c = some t ∧
      t.rows.get? r = some (row.take p ++ c :: row.drop p) ∧
      (row.take p ++ c :: row.drop p).length = row.length + 1 ∧
      (∀ i, i ≠ r → t.rows.get? i = s.rows.get? i ∧
        t.renderRows.get? i = s.renderRows.get? i) ∧
      (∃ render, renderString (row.take p ++ c :: row.drop p) = some render ∧
        t.renderRows.get? r = some render) ∧
      t.numRows = s.numRows ∧ t.rows.size = s.rows.size ∧
      t.renderRows.size = s.renderRows.size ∧ t.cx = s.cx ∧ t.cy = s.cy := by
  obtain ⟨h0, hmax, hrows, hrend⟩ := hwf
  have hr1 : r < s.rows.size := by omega
  have hr2 : r < s.renderRows.size := by omega
  have hr1e : r < s.rows.elems.length := by rw [← StringArray.size_eq_elems]; exact hr1
  have hr2e : r < s.renderRows.elems.length := by
    rw [← StringArray.size_eq_elems]; exact hr2
  have hget : s.rows.get? r = some s.rows.elems[r] := by
    rw [StringArray.get?_eq_elems, List.getElem?_eq_getElem hr1e]
  have hp := clampAt_toNat s.rows.elems[r] pos
  refine ⟨s.rows.elems[r], (clampAt s.rows.elems[r] pos).toNat, _, hget, hp,
    editorRowInsertChar_eq s r pos c _ hget hr2, ?_, ?_, ?_, ?_, rfl, ?_, ?_, rfl, rfl⟩
  · simp [StringArray.get?, strInsert, hr1e]
  · exact strInsert_length _ _ c (clampAt_toNat_le _ pos)
  · intro i hi
    simp only [StringArray.get?_alloc, StringArray.get?_eq_elems s.rows,
      StringArray.get?_eq_elems s.renderRows, List.getElem?_set_ne (Ne.symm hi), and_self]
  · exact ⟨_, renderString_eq _, by simp [strInsert, hr2e]⟩
  · simp only [StringArray.size_alloc, List.length_set, StringArray.size_eq_elems s.rows]
  · simp only [StringArray.size_alloc, List.length_set,
      StringArray.size_eq_elems s.renderRows]

theorem editorRowInsertChar_spec_witness :
    ∃ row p t, (threeRowState 0 0 0 0 2 4).rows.get? 1 = some row ∧
      p = (if 0 ≤ (-3 : Int) ∧ (-3 : Int) ≤ (row.length : Int) then (-3 : Int).toNat
            else row.length) ∧
      editorRowInsertChar (threeRowState 0 0 0 0 2 4) 1 (-3) 9 = some t ∧
      t.rows.get? 1 = some (row.take p ++ 9 :: row.drop p) ∧
      (row.take p ++ 9 :: row.drop p).length = row.length + 1 ∧
      (∀ i, i ≠ 1 → t.rows.get? i = (threeRowState 0 0 0 0 2 4).rows.get? i ∧
        t.renderRows.get? i = (threeRowState 0 0 0 0 2 4).renderRows.get? i) ∧
      (∃ render, renderString (row.take p ++ 9 :: row.drop p) = some render ∧
        t.renderRows.get? 1 = some render) ∧
      t.numRows = (threeRowState 0 0 0 0 2 4).numRows ∧
      t.rows.size = (threeRowState 0 0 0 0 2 4).rows.size ∧
      t.renderRows.size = (threeRowState 0 0 0 0 2 4).renderRows.size ∧
      t.cx = (threeRowState 0 0 0 0 2 4).cx ∧ t.cy = (threeRowState 0 0 0 0 2 4).cy :=
  editorRowInsertChar_spec (threeRowState 0 0 0 0 2 4) 1 (-3) 9 (by decide) (by decide)

theorem editorScroll_cursor_in_viewport_witness :
    1 ≤ (threeRowState 3 1 7 9 1 1).screenRows ∧ 1 ≤ (threeRowState 3 1 7 9 1 1).screenCols ∧
    ∃ t, editorScroll (threeRowState 3 1 7 9 1 1) = some t ∧
      t.rowOff ≤ t.cy ∧ t.cy < t.rowOff + t.screenRows ∧
      t.colOff ≤ t.rx ∧ t.rx < t.colOff + t.screenCols :=
  ⟨by decide, by decide,
    (fun h => (h.2 (by decide) (by decide)).elim
      (fun t ht => ⟨t, ht, (h.1 t ht).2.2.2.2⟩))
    (editorScroll_cursor_in_viewport (threeRowState 3 1 7 9 1 1) (by decide) (by decide))⟩

theorem editorInsertChar_trailing_eq (s : EditorConfig) (c : Nat) (hwf : DocWF s)
    (hcy : s.cy = s.numRows) :
    editorInsertChar s c = some { s with
      rows := StringArray.alloc ((s.rows.elems ++ [[]]).set s.rows.elems.length
        (strInsert [] (clampAt [] s.cx).toNat c)),
      renderRows := StringArray.alloc ((s.renderRows.elems ++ [expandTabs []]).set
        s.rows.elems.length (expandTabs (strInsert [] (clampAt [] s.cx).toNat c))),
      numRows := s.numRows + 1,
      cx := s.cx + 1 } := by
  have happ := editorAppendRow_eq s [] hwf
  obtain ⟨h0, hmax, hrows, hrend⟩ := hwf
  have hlen1 : s.numRows.toNat = s.rows.elems.length := by
    rw [← StringArray.size_eq_elems]
    omega
  have hlen2 : s.numRows.toNat = s.renderRows.elems.length := by
    rw [← StringArray.size_eq_elems]
    omega
  have hidx : toUint s.cy = s.rows.elems.length := by
    rw [hcy, toUint_of_range s.numRows h0 hmax, hlen1]
  have hins := editorRowInsertChar_eq
    { s with rows := StringArray.alloc (s.rows.elems ++ [[]]),
             renderRows := StringArray.alloc (s.renderRows.elems ++ [expandTabs []]),
             numRows := s.numRows + 1 }
    s.rows.elems.length s.cx c [] (by simp) (by simp; omega)
  simp only [editorInsertChar, if_pos hcy, happ, Option.bind_eq_bind, Option.some_bind,
    hidx, hins]
  rfl

/-- C8: in a well-formed state whose cursor sits on the not-yet-created
trailing row (`cy == numRows`, `cx == 0`), `editorInsertChar(c)` returns a
state with one more row: every earlier row is unchanged, the new last row is
the one-character string `c` (and its render row the expansion of it), `cy` is
unchanged and `cx == 1`. -/
theorem editorInsertChar_on_trailing_row (s : EditorConfig) (c : Nat) (hwf : DocWF s)
    (hcy : s.cy = s.numRows) (hcx : s.cx = 0) :
    ∃ t, editorInsertChar s c = some t ∧ t.numRows = s.numRows + 1 ∧
      (t.rows.size : Int) = s.numRows + 1 ∧ (t.renderRows.size : Int) = s.numRows + 1 ∧
      (∀ i : Nat, (i : Int) < s.numRows → t.rows.get? i = s.rows.get? i) ∧
      t.rows.getI s.numRows = some [c] ∧
      (∃ render, renderString [c] = some render ∧
        t.renderRows.getI s.numRows = some render) ∧
      t.cy = s.cy ∧ t.cx = 1 := by
  have hfin := editorInsertChar_trailing_eq s c hwf hcy
  obtain ⟨h0, hmax, hrows, hrend⟩ := hwf
  have hlen1 : s.numRows.toNat = s.rows.elems.length := by
    rw [← StringArray.size_eq_elems]
    omega
  have hlen2 : s.numRows.toNat = s.renderRows.elems.length := by
    rw [← StringArray.size_eq_elems]
    omega
  have hneg : ¬ s.numRows < 0 := by omega
  refine ⟨_, hfin, rfl, ?_, ?_, ?_, ?_, ?_, rfl, ?_⟩
  · simp only [StringArray.size_alloc, StringArray.elems_alloc, List.length_set,
      List.length_append, List.length_singleton]
    push_cast
    omega
  · simp only [StringArray.size_alloc, StringArray.elems_alloc, List.length_set,
      List.length_append, List.length_singleton]
    push_cast
    omega
  · intro i hi
    have hi1 : i < s.rows.elems.length := by omega
    simp only [StringArray.get?_alloc, StringArray.elems_alloc,
      StringArray.get?_eq_elems s.rows,
      List.getElem?_set_ne (Nat.ne_of_gt hi1), List.getElem?_append_left hi1]
  · simp [StringArray.getI, hneg, hlen1, strInsert, clampAt, hcx]
  · refine ⟨_, renderString_eq _, ?_⟩
    have hl : s.rows.elems.length = s.renderRows.elems.length := by omega
    simp [StringArray.getI, hneg, hlen2, strInsert, clampAt, hcx, hl]
  · simp [hcx]

theorem editorInsertChar_on_trailing_row_witness :
    ∃ t, editorInsertChar (threeRowState 0 3 0 0 2 4) 88 = some t ∧
      t.numRows = (threeRowState 0 3 0 0 2 4).numRows + 1 ∧
      (t.rows.size : Int) = (threeRowState 0 3 0 0 2 4).numRows + 1 ∧
      (t.renderRows.size : Int) = (threeRowState 0 3 0 0 2 4).numRows + 1 ∧
      (∀ i : Nat, (i : Int) < (threeRowState 0 3 0 0 2 4).numRows →
        t.rows.get? i = (threeRowState 0 3 0 0 2 4).rows.get? i) ∧
      t.rows.getI (threeRowState 0 3 0 0 2 4).numRows = some [88] ∧
      (∃ render, renderString [88] = some render ∧
        t.renderRows.getI (threeRowState 0 3 0 0 2 4).numRows = some render) ∧
      t.cy = (threeRowState 0 3 0 0 2 4).cy ∧ t.cx = 1 :=
  editorInsertChar_on_trailing_row (threeRowState 0 3 0 0 2 4) 88 (by decide) (by decide)
    (by decide)

/-! ## Rows and render rows stay in step -/

theorem expandTabs_no_tab_mem (l : Str) : 9 ∉ expandTabs l := by
  induction l with
  | nil => simp [expandTabs]
  | cons c t ih =>
    by_cases hc : c = 9
    · simp [expandTabs, hc, KILO_TAB, ih]
    · simp only [expandTabs, hc, if_false, List.mem_cons, not_or]
      exact ⟨fun e => hc e.symm, ih⟩

theorem expandTabs_length_ge (l : Str) : l.length ≤ (expandTabs l).length := by
  induction l with
  | nil => simp [expandTabs]
  | cons c t ih =>
    by_cases hc : c = 9
    · simp only [expandTabs, hc, if_true, KILO_TAB, List.length_append, List.length_cons,
        List.length_nil]
      omega
    · simp only [expandTabs, hc, if_false, List.length_cons]
      omega

theorem editorUpdateRow_numRows (s t : EditorConfig) (i : Nat)
    (h : editorUpdateRow s i = some t) : t.numRows = s.numRows := by
  simp only [editorUpdateRow, Option.bind_eq_bind, Option.bind_eq_some, Option.pure_def,
    Option.some.injEq] at h
  obtain ⟨_, _, _, _, _, _, rfl⟩ := h
  rfl

theorem editorAppendRow_numRows (s t : EditorConfig) (row : Str)
    (h : editorAppendRow s row = some t) : t.numRows = s.numRows + 1 := by
  simp only [editorAppendRow, Option.bind_eq_bind, Option.bind_eq_some, Option.pure_def,
    Option.some.injEq] at h
  obtain ⟨_, _, _, _, _, _, u, hu, rfl⟩ := h
  have := editorUpdateRow_numRows _ _ _ hu
  simpa using this

theorem editorRowInsertChar_numRows (s t : EditorConfig) (i : Nat) (pos : Int) (c : Nat)
    (h : editorRowInsertChar s i pos c = some t) : t.numRows = s.numRows := by
  simp only [editorRowInsertChar, Option.bind_eq_bind, Option.bind_eq_some] at h
  obtain ⟨_, _, _, _, hu⟩ := h
  have e := editorUpdateRow_numRows _ _ _ hu
  simpa using e

theorem editorInsertChar_inv (s t : EditorConfig) (c : Nat)
    (h : editorInsertChar s c = some t) :
    ∃ s1 s2, (if s.cy = s.numRows then editorAppendRow s [] else some s) = some s1 ∧
      editorRowInsertChar s1 (toUint s1.cy) s1.cx c = some s2 ∧
      t = { s2 with cx := s2.cx + 1 } := by
  simp only [editorInsertChar, Option.bind_eq_bind, Option.bind_eq_some, Option.pure_def,
    Option.some.injEq] at h
  obtain ⟨s1, h1, s2, h2, rfl⟩ := h
  exact ⟨s1, s2, h1, h2, rfl⟩

theorem DocSync.wellFormed (s : EditorConfig) (h : DocSync s) (hmax : s.numRows ≤ INT_MAX) :
    DocWF s := by
  obtain ⟨h1, h2⟩ := h
  refine ⟨by omega, hmax, ?_, ?_⟩
  · rw [StringArray.size_eq_elems, h1]
  · rw [StringArray.size_eq_elems, h2, List.length_map, h1]

theorem DocSync.after_appendRow (s t : EditorConfig) (row : Str) (h : DocSync s)
    (hmax : s.numRows ≤ INT_MAX) (ht : editorAppendRow s row = some t) : DocSync t := by
  rw [editorAppendRow_eq s row (h.wellFormed s hmax)] at ht
  cases ht
  obtain ⟨h1, h2⟩ := h
  refine ⟨?_, ?_⟩
  · simp only [StringArray.elems_alloc, List.length_append, List.length_singleton]
    push_cast
    omega
  · simp only [StringArray.elems_alloc, h2, List.map_append, List.map_cons, List.map_nil]

theorem DocSync.after_rowInsertChar (s t : EditorConfig) (i : Nat) (pos : Int) (c : Nat)
    (h : DocSync s) (ht : editorRowInsertChar s i pos c = some t) : DocSync t := by
  obtain ⟨h1, h2⟩ := h
  by_cases hi : i < s.rows.elems.length
  · have hget : s.rows.get? i = some s.rows.elems[i] := by
      rw [StringArray.get?_eq_elems, List.getElem?_eq_getElem hi]
    have hlt : i < s.renderRows.size := by
      rw [StringArray.size_eq_elems, h2, List.length_map]
      exact hi
    rw [editorRowInsertChar_eq s i pos c _ hget hlt] at ht
    cases ht
    refine ⟨?_, ?_⟩
    · simp only [StringArray.elems_alloc, List.length_set]
      exact h1
    · simp only [StringArray.elems_alloc, h2, List.map_set]
  · have hnone : s.rows.get? i = none := by
      apply StringArray.get?_of_ge
      rw [StringArray.size_eq_elems]
      omega
    simp [editorRowInsertChar, hnone] at ht

theorem DocSync.after_insertChar (s t : EditorConfig) (c : Nat) (h : DocSync s)
    (hmax : s.numRows ≤ INT_MAX) (ht : editorInsertChar s c = some t) : DocSync t := by
  obtain ⟨s1, s2, h1, h2, rfl⟩ := editorInsertChar_inv s t c ht
  have hs1 : DocSync s1 := by
    by_cases hcy : s.cy = s.numRows
    · rw [if_pos hcy] at h1
      exact h.after_appendRow s s1 [] hmax h1
    · rw [if_neg hcy] at h1
      cases h1
      exact h
  exact hs1.after_rowInsertChar s1 s2 _ _ c h2

theorem editorInsertChar_numRows (s t : EditorConfig) (c : Nat)
    (ht : editorInsertChar s c = some t) : s.numRows ≤ t.numRows := by
  obtain ⟨s1, s2, h1, h2, rfl⟩ := editorInsertChar_inv s t c ht
  have e2 := editorRowInsertChar_numRows s1 s2 _ _ c h2
  by_cases hcy : s.cy = s.numRows
  · rw [if_pos hcy] at h1
    have e1 := editorAppendRow_numRows s s1 [] h1
    show s.numRows ≤ s2.numRows
    omega
  · rw [if_neg hcy] at h1
    cases h1
    show s.numRows ≤ s2.numRows
    omega

theorem DocReachable.docSync (s : EditorConfig) (h : DocReachable s) :
    s.numRows ≤ INT_MAX → DocSync s := by
  induction h with
  | init r c => intro _; exact ⟨rfl, rfl⟩
  | appendRow s t row _ ht ih =>
    intro hmax
    have e := editorAppendRow_numRows s t row ht
    have hs : s.numRows ≤ INT_MAX := by omega
    exact (ih hs).after_appendRow s t row hs ht
  | rowInsertChar s t i pos c _ ht ih =>
    intro hmax
    have e := editorRowInsertChar_numRows s t i pos c ht
    exact (ih (by omega)).after_rowInsertChar s t i pos c ht
  | insertChar s t c _ ht ih =>
    intro hmax
    have e := editorInsertChar_numRows s t c ht
    have hs : s.numRows ≤ INT_MAX := by omega
    exact (ih hs).after_insertChar s t c hs ht
  | cursor s cx cy _ ih =>
    intro hmax
    exact ih hmax

/-- C7: in every state reached from the empty document by `editorAppendRow`,
`editorRowInsertChar` and `editorInsertChar` (the cursor placed anywhere in
between), as long as `numRows` fits its `int`, `rows` and `renderRows` both
hold exactly `numRows` entries, and for every `i < numRows` the render row `i`
is the expansion that `editorUpdateRow` computes from the current row `i`; it
contains no tab and is at least as long as the row. -/
theorem rows_and_renderRows_in_step (s : EditorConfig) (h : DocReachable s)
    (hfit : s.numRows ≤ INT_MAX) :
    (s.rows.size : Int) = s.numRows ∧ (s.renderRows.size : Int) = s.numRows ∧
    ∀ i : Nat, (i : Int) < s.numRows →
      ∃ row render, s.rows.get? i = some row ∧ s.renderRows.get? i = some render ∧
        renderString row = some render ∧ 9 ∉ render ∧ row.length ≤ render.length := by
  have hsync := h.docSync s hfit
  obtain ⟨_, _, hr, hrr⟩ := hsync.wellFormed s hfit
  obtain ⟨h1, h2⟩ := hsync
  refine ⟨hr, hrr, ?_⟩
  intro i hi
  have hi1 : i < s.rows.elems.length := by omega
  refine ⟨s.rows.elems[i], expandTabs s.rows.elems[i], ?_, ?_, renderString_eq _,
    expandTabs_no_tab_mem _, expandTabs_length_ge _⟩
  · rw [StringArray.get?_eq_elems, List.getElem?_eq_getElem hi1]
  · rw [StringArray.get?_eq_elems, h2, List.getElem?_map, List.getElem?_eq_getElem hi1]
    rfl

theorem rows_and_renderRows_in_step_witness :
    (afterInsert.rows.size : Int) = afterInsert.numRows ∧
    (afterInsert.renderRows.size : Int) = afterInsert.numRows ∧
    ∀ i : Nat, (i : Int) < afterInsert.numRows →
      ∃ row render, afterInsert.rows.get? i = some row ∧
        afterInsert.renderRows.get? i = some render ∧
        renderString row = some render ∧ 9 ∉ render ∧ row.length ≤ render.length :=
  rows_and_renderRows_in_step afterInsert
    (DocReachable.insertChar afterAppend afterInsert 9
      (DocReachable.appendRow (initEditor 24 80) afterAppend [97, 9]
        (DocReachable.init 24 80) (by decide))
      (by decide))
    (by decide)

/-! ## Cursor movement: lemmas -/

theorem CTRL_KEY_q : CTRL_KEY 113 = 17 := by decide

theorem CTRL_KEY_h : CTRL_KEY 104 = 8 := by decide

theorem CTRL_KEY_l : CTRL_KEY 108 = 12 := by decide


theorem StringArray.getI_of_ge (a : StringArray) (i : Int) (h : (a.size : Int) ≤ i) :
    a.getI i = none := by
  unfold StringArray.getI
  split_ifs with h0
  · rfl
  · exact a.get?_of_ge _ (by omega)

theorem rowLen_of_ge (s : EditorConfig) (i : Int) (h : (s.rows.size : Int) ≤ i) :
    rowLen s i = 0 := by
  simp [rowLen, s.rows.getI_of_ge i h]

theorem rowLen_congr (s t : EditorConfig) (h : t.rows = s.rows) (i : Int) :
    rowLen t i = rowLen s i := by
  simp [rowLen, h]

theorem SameButCursor.refl (s : EditorConfig) : SameButCursor s s :=
  ⟨rfl, rfl, rfl, rfl, rfl, rfl, rfl, rfl, rfl, rfl, rfl⟩

theorem SameButCursor.trans (s t u : EditorConfig) (h1 : SameButCursor s t)
    (h2 : SameButCursor t u) : SameButCursor s u := by
  obtain ⟨a1, a2, a3, a4, a5, a6, a7, a8, a9, a10, a11⟩ := h1
  obtain ⟨b1, b2, b3, b4, b5, b6, b7, b8, b9, b10, b11⟩ := h2
  exact ⟨b1.trans a1, b2.trans a2, b3.trans a3, b4.trans a4, b5.trans a5, b6.trans a6,
    b7.trans a7, b8.trans a8, b9.trans a9, b10.trans a10, b11.trans a11⟩

theorem SameButCursor.docWF (s t : EditorConfig) (h : SameButCursor s t) (hwf : DocWF s) :
    DocWF t := by
  obtain ⟨_, _, _, _, _, a6, a7, a8, _, _, _⟩ := h
  unfold DocWF at hwf ⊢
  rw [a6, a7, a8]
  exact hwf

theorem clampCursor_eq (s : EditorConfig) (hwf : DocWF s) (h0 : 0 ≤ s.cy)
    (h1 : s.cy ≤ s.numRows) :
    clampCursor s = some (if s.cx > rowLen s s.cy then { s with cx := rowLen s s.cy } else s) := by
  obtain ⟨hn, _, hrows, _⟩ := hwf
  by_cases hlt : s.cy < s.numRows
  · obtain ⟨r, hr⟩ := s.rows.getI_isSome s.cy h0 (by rw [hrows]; exact hlt)
    have hge : ¬ s.cy ≥ s.numRows := by omega
    simp [clampCursor, currentRowLen, hge, hr, rowLen]
  · have hge : s.cy ≥ s.numRows := by omega
    have hz : rowLen s s.cy = 0 := rowLen_of_ge s s.cy (by omega)
    simp [clampCursor, currentRowLen, hge, hz]

theorem clampCursor_spec (s : EditorConfig) (hwf : DocWF s) (h0 : 0 ≤ s.cy)
    (h1 : s.cy ≤ s.numRows) :
    ∃ t, clampCursor s = some t ∧ SameButCursor s t ∧ t.cy = s.cy ∧
      t.cx ≤ rowLen t t.cy ∧ t.cx ≤ s.cx ∧ (0 ≤ s.cx → 0 ≤ t.cx) ∧
      (s.cx ≤ rowLen s s.cy → t.cx = s.cx) := by
  refine ⟨_, clampCursor_eq s hwf h0 h1, ?_⟩
  have hnn := rowLen_nonneg s s.cy
  split_ifs with h
  · refine ⟨SameButCursor.refl s, rfl, ?_, ?_, ?_, ?_⟩
    · exact le_of_eq (rowLen_congr s _ rfl _).symm
    · exact le_of_lt h
    · intro _; exact hnn
    · intro h'; exact absurd h' (not_le.mpr h)
  · exact ⟨SameButCursor.refl s, rfl, not_lt.mp h, le_rfl, fun h' => h', fun _ => rfl⟩

theorem editorMoveCursor_of_switch (s s1 : EditorConfig) (key : Int)
    (hsw : moveCursorSwitch s key = some s1) (hsame : SameButCursor s s1) (hwf : DocWF s)
    (h0 : 0 ≤ s1.cy) (h1 : s1.cy ≤ s.numRows) :
    ∃ t, editorMoveCursor s key = some t ∧ SameButCursor s t ∧ t.cy = s1.cy ∧
      t.cx ≤ rowLen t t.cy ∧ t.cx ≤ s1.cx ∧ (0 ≤ s1.cx → 0 ≤ t.cx) ∧
      (s1.cx ≤ rowLen s1 s1.cy → t.cx = s1.cx) := by
  have hwf1 : DocWF s1 := hsame.docWF s s1 hwf
  have hn : s1.numRows = s.numRows := hsame.2.2.2.2.2.1
  obtain ⟨t, ht, hst, hcy, hle, hle2, hnn, hkeep⟩ :=
    clampCursor_spec s1 hwf1 h0 (by rw [hn]; exact h1)
  exact ⟨t, by simp [editorMoveCursor, hsw, ht], hsame.trans s s1 t hst, hcy, hle, hle2,
    hnn, hkeep⟩

theorem moveCursorSwitch_up (s : EditorConfig) :
    moveCursorSwitch s ARROW_UP
      = some (if s.cy > 0 then { s with cy := s.cy - 1 } else s) := by
  simp only [moveCursorSwitch, ARROW_UP, ARROW_LEFT, ARROW_RIGHT]
  split_ifs <;> first | rfl | omega

theorem moveCursorSwitch_down (s : EditorConfig) :
    moveCursorSwitch s ARROW_DOWN
      = some (if s.cy < s.numRows then { s with cy := s.cy + 1 } else s) := by
  simp only [moveCursorSwitch, ARROW_DOWN, ARROW_UP, ARROW_LEFT, ARROW_RIGHT]
  split_ifs <;> first | rfl | omega

theorem moveCursorSwitch_left (s : EditorConfig) (hwf : DocWF s) (h1 : s.cy ≤ s.numRows) :
    moveCursorSwitch s ARROW_LEFT
      = some (if s.cx > 0 then { s with cx := s.cx - 1 }
          else if s.cy > 0 then { s with cy := s.cy - 1, cx := rowLen s (s.cy - 1) }
          else s) := by
  obtain ⟨_, _, hrows, _⟩ := hwf
  simp only [moveCursorSwitch, if_true]
  by_cases hcx : s.cx > 0
  · simp [hcx]
  · by_cases hcy : s.cy > 0
    · obtain ⟨r, hr⟩ := s.rows.getI_isSome (s.cy - 1) (by omega) (by omega)
      simp [hcx, hcy, hr, rowLen]
    · simp [hcx, hcy]

theorem moveCursorSwitch_right (s : EditorConfig) (hwf : DocWF s) (h0 : 0 ≤ s.cy) :
    moveCursorSwitch s ARROW_RIGHT
      = some (if s.cy ≥ s.numRows then s
          else if s.cx < rowLen s s.cy then { s with cx := s.cx + 1 }
          else if s.cx = rowLen s s.cy then { s with cy := s.cy + 1, cx := 0 }
          else s) := by
  obtain ⟨_, _, hrows, _⟩ := hwf
  have hne : ¬ (ARROW_RIGHT = ARROW_LEFT) := by decide
  simp only [moveCursorSwitch, if_neg hne, if_true]
  by_cases hge : s.cy ≥ s.numRows
  · simp [hge]
  · obtain ⟨r, hr⟩ := s.rows.getI_isSome s.cy h0 (by omega)
    simp only [if_neg hge, hr, rowLen, Option.bind_eq_bind, Option.some_bind]
    split_ifs <;> rfl

/-- One arrow key on a well-formed state whose cursor row is in range and
whose column is non-negative: the function returns, only the cursor changes,
and the cursor invariant holds afterwards. -/
theorem editorMoveCursor_inv (s : EditorConfig) (key : Int)
    (hkey : key = ARROW_LEFT ∨ key = ARROW_RIGHT ∨ key = ARROW_UP ∨ key = ARROW_DOWN)
    (hwf : DocWF s) (h0 : 0 ≤ s.cy) (h1 : s.cy ≤ s.numRows) (hcx : 0 ≤ s.cx) :
    ∃ t, editorMoveCursor s key = some t ∧ SameButCursor s t ∧ 0 ≤ t.cy ∧
      t.cy ≤ t.numRows ∧ 0 ≤ t.cx ∧ t.cx ≤ rowLen t t.cy := by
  have key_case : ∃ s1, moveCursorSwitch s key = some s1 ∧ SameButCursor s s1 ∧
      0 ≤ s1.cy ∧ s1.cy ≤ s.numRows ∧ 0 ≤ s1.cx := by
    rcases hkey with rfl | rfl | rfl | rfl
    · refine ⟨_, moveCursorSwitch_left s hwf h1, ?_⟩
      have := rowLen_nonneg s (s.cy - 1)
      split_ifs
      · exact ⟨SameButCursor.refl s, h0, h1, by show 0 ≤ s.cx - 1; omega⟩
      · exact ⟨SameButCursor.refl s, by show 0 ≤ s.cy - 1; omega,
          by show s.cy - 1 ≤ s.numRows; omega, this⟩
      · exact ⟨SameButCursor.refl s, h0, h1, hcx⟩
    · refine ⟨_, moveCursorSwitch_right s hwf h0, ?_⟩
      split_ifs
      · exact ⟨SameButCursor.refl s, h0, h1, hcx⟩
      · exact ⟨SameButCursor.refl s, h0, h1, by show 0 ≤ s.cx + 1; omega⟩
      · exact ⟨SameButCursor.refl s, by show 0 ≤ s.cy + 1; omega,
          by show s.cy + 1 ≤ s.numRows; omega, le_rfl⟩
      · exact ⟨SameButCursor.refl s, h0, h1, hcx⟩
    · refine ⟨_, moveCursorSwitch_up s, ?_⟩
      split_ifs
      · exact ⟨SameButCursor.refl s, by show 0 ≤ s.cy - 1; omega,
          by show s.cy - 1 ≤ s.numRows; omega, hcx⟩
      · exact ⟨SameButCursor.refl s, h0, h1, hcx⟩
    · refine ⟨_, moveCursorSwitch_down s, ?_⟩
      split_ifs
      · exact ⟨SameButCursor.refl s, by show 0 ≤ s.cy + 1; omega,
          by show s.cy + 1 ≤ s.numRows; omega, hcx⟩
      · exact ⟨SameButCursor.refl s, h0, h1, hcx⟩
  obtain ⟨s1, hsw, hsame, a0, a1, acx⟩ := key_case
  obtain ⟨t, ht, hst, hcy, hle, _, hnn, _⟩ :=
    editorMoveCursor_of_switch s s1 key hsw hsame hwf a0 a1
  have hn : t.numRows = s.numRows := hst.2.2.2.2.2.1
  exact ⟨t, ht, hst, by rw [hcy]; exact a0, by rw [hcy, hn]; exact a1, hnn acx, hle⟩

theorem moveCursorTimes_inv (key : Int)
    (hkey : key = ARROW_LEFT ∨ key = ARROW_RIGHT ∨ key = ARROW_UP ∨ key = ARROW_DOWN)
    (n : Nat) (s : EditorConfig) (hwf : DocWF s) (h0 : 0 ≤ s.cy) (h1 : s.cy ≤ s.numRows)
    (hcx : 0 ≤ s.cx) :
    ∃ t, moveCursorTimes key (n + 1) s = some t ∧ SameButCursor s t ∧ 0 ≤ t.cy ∧
      t.cy ≤ t.numRows ∧ 0 ≤ t.cx ∧ t.cx ≤ rowLen t t.cy := by
  induction n generalizing s with
  | zero =>
    obtain ⟨t, ht, hst, a0, a1, a2, a3⟩ := editorMoveCursor_inv s key hkey hwf h0 h1 hcx
    exact ⟨t, by simp [moveCursorTimes, ht], hst, a0, a1, a2, a3⟩
  | succ k ih =>
    obtain ⟨u, hu, hsu, a0, a1, a2, _⟩ := editorMoveCursor_inv s key hkey hwf h0 h1 hcx
    obtain ⟨t, ht, hut, b0, b1, b2, b3⟩ := ih u (hsu.docWF s u hwf) a0 a1 a2
    refine ⟨t, ?_, hsu.trans s u t hut, b0, b1, b2, b3⟩
    rw [moveCursorTimes, hu]
    exact ht

theorem editorMoveCursor_down_cx (s : EditorConfig) (hwf : DocWF s) (h0 : 0 ≤ s.cy)
    (h1 : s.cy ≤ s.numRows) :
    ∃ t, editorMoveCursor s ARROW_DOWN = some t ∧ SameButCursor s t ∧
      t.cy = min (s.cy + 1) s.numRows ∧
      t.cx = min s.cx (rowLen s (min (s.cy + 1) s.numRows)) := by
  have hsw := moveCursorSwitch_down s
  by_cases hlt : s.cy < s.numRows
  · rw [if_pos hlt] at hsw
    have hm : min (s.cy + 1) s.numRows = s.cy + 1 := by omega
    have hc := clampCursor_eq { s with cy := s.cy + 1 } hwf
      (by show 0 ≤ s.cy + 1; omega) (by show s.cy + 1 ≤ s.numRows; omega)
    rw [hm]
    by_cases hgt : s.cx > rowLen s (s.cy + 1)
    · refine ⟨{ s with cy := s.cy + 1, cx := rowLen s (s.cy + 1) }, ?_,
        SameButCursor.refl s, rfl, ?_⟩
      · simp only [editorMoveCursor, hsw, Option.some_bind, hc]
        rw [if_pos (by exact hgt)]
        rfl
      · show rowLen s (s.cy + 1) = min s.cx (rowLen s (s.cy + 1))
        omega
    · refine ⟨{ s with cy := s.cy + 1 }, ?_, SameButCursor.refl s, rfl, ?_⟩
      · simp only [editorMoveCursor, hsw, Option.some_bind, hc]
        rw [if_neg (by exact hgt)]
      · show s.cx = min s.cx (rowLen s (s.cy + 1))
        omega
  · rw [if_neg hlt] at hsw
    have hm : min (s.cy + 1) s.numRows = s.cy := by omega
    have hc := clampCursor_eq s hwf h0 h1
    rw [hm]
    by_cases hgt : s.cx > rowLen s s.cy
    · refine ⟨{ s with cx := rowLen s s.cy }, ?_, SameButCursor.refl s, rfl, ?_⟩
      · simp only [editorMoveCursor, hsw, Option.some_bind, hc]
        rw [if_pos hgt]
      · show rowLen s s.cy = min s.cx (rowLen s s.cy)
        omega
    · refine ⟨s, ?_, SameButCursor.refl s, rfl, ?_⟩
      · simp only [editorMoveCursor, hsw, Option.some_bind, hc]
        rw [if_neg hgt]
      · omega

theorem moveCursorTimes_down_cx (n : Nat) (s : EditorConfig) (hwf : DocWF s) (h0 : 0 ≤ s.cy)
    (h1 : s.cy ≤ s.numRows) :
    ∃ t, moveCursorTimes ARROW_DOWN (n + 1) s = some t ∧ SameButCursor s t ∧
      t.cy = min (s.cy + ((n : Int) + 1)) s.numRows ∧ t.cx ≤ rowLen t t.cy ∧ t.cx ≤ s.cx ∧
      (∀ k : Int, 1 ≤ k → k ≤ (n : Int) + 1 → t.cx ≤ rowLen s (min (s.cy + k) s.numRows)) ∧
      (t.cx = s.cx ∨
        ∃ k : Int, 1 ≤ k ∧ k ≤ (n : Int) + 1 ∧ t.cx = rowLen s (min (s.cy + k) s.numRows)) := by
  induction n generalizing s with
  | zero =>
    obtain ⟨t, ht, hst, a0, a1⟩ := editorMoveCursor_down_cx s hwf h0 h1
    have hlast : t.cx ≤ rowLen t t.cy := by
      rw [rowLen_congr s t hst.2.2.2.2.2.2.1, a0, a1]
      exact min_le_right _ _
    refine ⟨t, by simp [moveCursorTimes, ht], hst, by simpa using a0, hlast, by omega, ?_, ?_⟩
    · intro k hk1 hk2
      have hk : k = 1 := by push_cast at hk2; omega
      subst hk
      omega
    · by_cases hle : s.cx ≤ rowLen s (min (s.cy + 1) s.numRows)
      · exact Or.inl (by omega)
      · exact Or.inr ⟨1, le_rfl, by simp, by omega⟩
  | succ m ih =>
    obtain ⟨u, hu, hsu, a0, a1⟩ := editorMoveCursor_down_cx s hwf h0 h1
    have hn : u.numRows = s.numRows := hsu.2.2.2.2.2.1
    have hrows : u.rows = s.rows := hsu.2.2.2.2.2.2.1
    have hux : u.cx ≤ s.cx := by rw [a1]; exact min_le_left _ _
    have hux1 : u.cx ≤ rowLen s (min (s.cy + 1) s.numRows) := by rw [a1]; exact min_le_right _ _
    have hm0 : (0 : Int) ≤ (m : Int) := Int.natCast_nonneg m
    have hucy : (u.cy = s.cy + 1 ∧ s.cy + 1 ≤ s.numRows) ∨
        (u.cy = s.numRows ∧ s.cy = s.numRows) := by
      clear a1
      omega
    have hshift : ∀ k : Int, 0 ≤ k →
        rowLen u (min (u.cy + k) u.numRows) = rowLen s (min (s.cy + (k + 1)) s.numRows) := by
      intro k hk
      rw [rowLen_congr s u hrows, hn]
      congr 1
      clear a0 a1 hux hux1
      omega
    obtain ⟨t, ht, hut, b0, blast, b1, b2, b3⟩ :=
      ih u (hsu.docWF s u hwf) (by omega) (by omega)
    refine ⟨t, ?_, hsu.trans s u t hut, ?_, blast, le_trans b1 hux, ?_, ?_⟩
    · rw [moveCursorTimes, hu]
      exact ht
    · clear b2 b3 a0 a1 hux hux1 hshift
      rw [b0, hn]
      push_cast
      omega
    · clear b3
      intro k hk1 hk2
      push_cast at hk2
      by_cases hk : k = 1
      · subst hk
        exact le_trans b1 hux1
      · have hb := b2 (k - 1) (by omega) (by omega)
        rw [hshift (k - 1) (by omega)] at hb
        have e : k - 1 + 1 = k := by omega
        rw [e] at hb
        exact hb
    · clear b2
      rcases b3 with e | ⟨k, hk1, hk2, e⟩
      · by_cases hle : s.cx ≤ rowLen s (min (s.cy + 1) s.numRows)
        · exact Or.inl (by omega)
        · exact Or.inr ⟨1, le_rfl, by push_cast; omega, by omega⟩
      · refine Or.inr ⟨k + 1, by omega, by push_cast; omega, ?_⟩
        rw [e, hshift k (by omega)]

/-- C10 (as stated, refuted): on a four-row terminal (`screenRows = 2`) the
file `hello`, two empty lines, `world`, `x` is loaded and End is pressed, so the
cursor is at the end of `hello` (`cx = 5`, `cy = 0`, `rowOff = 0`).  PageDown
moves to row 3, `world`, of length 5, which is `rowOff + 2*screenRows - 1`; on
the way the cursor steps onto the empty row 2, where `cx` is brought down to 0,
and it stays 0 afterwards: `cx` is not its old value clamped to the length of
the new row, which would be 5. -/
theorem pageDown_counterexample :
    ([[104, 101, 108, 108, 111], [], [], [119, 111, 114, 108, 100], [120]] : List Str).foldlM
      editorAppendRow (initEditor 4 80) = some fiveRowLoaded ∧
    runKeys fiveRowLoaded [END_KEY] = Outcome.running fiveRowAtEnd ∧
    DocWF fiveRowAtEnd ∧ CursorInv fiveRowAtEnd ∧
    0 ≤ fiveRowAtEnd.rowOff ∧ 1 ≤ fiveRowAtEnd.screenRows ∧
    editorProcessKeypress fiveRowAtEnd PAGE_DOWN
      = Outcome.running { fiveRowAtEnd with cy := 3, cx := 0 } ∧
    fiveRowAtEnd.rowOff + 2 * fiveRowAtEnd.screenRows - 1 = 3 ∧
    fiveRowAtEnd.cx = 5 ∧ rowLen fiveRowAtEnd 3 = 5 ∧
    (0 : Int) ≠ min fiveRowAtEnd.cx (rowLen fiveRowAtEnd 3) := by
  decide

/-- C10 (amended): in every well-formed state with `rowOff >= 0` and
`screenRows >= 1` the PageDown key returns, changes only the cursor, and leaves
`cy = min(rowOff + 2*screenRows - 1, numRows)`, hence `0 <= cy <= numRows`.  It
leaves `cx` at the smallest of its old value and the lengths of the rows the
cursor steps onto, which are the rows `min(j + k, numRows)` for
`k = 1 .. screenRows` with `j = min(rowOff + screenRows - 1, numRows)` (the
trailing row counting as length 0): `cx` is at most each of them and equal to
one of them; in particular it is at most the length of the new row.  With
`numRows = 50`, `screenRows = 20` and `rowOff = 0` the key ends at `cy = 39`. -/
theorem pageDown_spec (s : EditorConfig) (hwf : DocWF s) (hro : 0 ≤ s.rowOff)
    (hsr : 1 ≤ s.screenRows) :
    ∃ t, editorProcessKeypress s PAGE_DOWN = Outcome.running t ∧ SameButCursor s t ∧
      t.cy = min (s.rowOff + 2 * s.screenRows - 1) s.numRows ∧
      0 ≤ t.cy ∧ t.cy ≤ t.numRows ∧
      t.cx ≤ rowLen t t.cy ∧ t.cx ≤ s.cx ∧
      (∀ k : Int, 1 ≤ k → k ≤ s.screenRows →
        t.cx ≤ rowLen s (min (min (s.rowOff + s.screenRows - 1) s.numRows + k) s.numRows)) ∧
      (t.cx = s.cx ∨ ∃ k : Int, 1 ≤ k ∧ k ≤ s.screenRows ∧
        t.cx = rowLen s (min (min (s.rowOff + s.screenRows - 1) s.numRows + k) s.numRows)) ∧
      (s.numRows = 50 → s.screenRows = 20 → s.rowOff = 0 → t.cy = 39) := by
  obtain ⟨k, hk⟩ : ∃ k : Nat, s.screenRows = (k : Int) + 1 :=
    ⟨(s.screenRows - 1).toNat, by omega⟩
  have hnum := hwf.1
  have hdisp : editorProcessKeypress s PAGE_DOWN = Outcome.ofOption (pageMove s PAGE_DOWN) := by
    simp [editorProcessKeypress, PAGE_DOWN, CTRL_KEY_q, CTRL_KEY_h, HOME_KEY, END_KEY,
      BACKSPACE, DEL_KEY]
  have hne : ¬ (PAGE_DOWN = PAGE_UP) := by decide
  have hnneg : ¬ (s.screenRows < 0) := by omega
  have htimes : s.screenRows.toNat = k + 1 := by omega
  by_cases hgt : s.rowOff + s.screenRows - 1 > s.numRows
  · have hpm : pageMove s PAGE_DOWN
        = moveCursorTimes ARROW_DOWN (k + 1) { s with cy := s.numRows } := by
      simp [pageMove, hne, hgt, hnneg, htimes]
    have hjump : min (s.rowOff + s.screenRows - 1) s.numRows = s.numRows := by omega
    obtain ⟨t, ht, hst, a0, a1, a2, a3, a4⟩ :=
      moveCursorTimes_down_cx k { s with cy := s.numRows } hwf hnum le_rfl
    have hn : t.numRows = s.numRows := hst.2.2.2.2.2.1
    have a0' : t.cy = min (s.numRows + ((k : Int) + 1)) s.numRows := a0
    rw [hjump]
    rw [← hk] at a3 a4
    refine ⟨t, by rw [hdisp, hpm, ht]; rfl, hst, ?_, ?_, ?_, a1, a2, a3, a4, ?_⟩
    · clear a3 a4
      omega
    · clear a3 a4
      omega
    · clear a3 a4
      omega
    · clear a3 a4
      intro e1 e2 e3
      omega
  · have hpm : pageMove s PAGE_DOWN
        = moveCursorTimes ARROW_DOWN (k + 1)
            { s with cy := s.rowOff + s.screenRows - 1 } := by
      simp [pageMove, hne, hgt, hnneg, htimes]
    have hjump : min (s.rowOff + s.screenRows - 1) s.numRows = s.rowOff + s.screenRows - 1 := by
      omega
    obtain ⟨t, ht, hst, a0, a1, a2, a3, a4⟩ :=
      moveCursorTimes_down_cx k { s with cy := s.rowOff + s.screenRows - 1 } hwf
        (by show 0 ≤ s.rowOff + s.screenRows - 1; omega)
        (by show s.rowOff + s.screenRows - 1 ≤ s.numRows; omega)
    have hn : t.numRows = s.numRows := hst.2.2.2.2.2.1
    have a0' : t.cy = min (s.rowOff + s.screenRows - 1 + ((k : Int) + 1)) s.numRows := a0
    rw [hjump]
    rw [← hk] at a3 a4
    refine ⟨t, by rw [hdisp, hpm, ht]; rfl, hst, ?_, ?_, ?_, a1, a2, a3, a4, ?_⟩
    · clear a3 a4
      omega
    · clear a3 a4
      omega
    · clear a3 a4
      omega
    · clear a3 a4
      intro e1 e2 e3
      omega

theorem pageDown_spec_witness :
    ∃ t, editorProcessKeypress fiftyRowState PAGE_DOWN = Outcome.running t ∧
      SameButCursor fiftyRowState t ∧
      t.cy = min (fiftyRowState.rowOff + 2 * fiftyRowState.screenRows - 1)
        fiftyRowState.numRows ∧
      0 ≤ t.cy ∧ t.cy ≤ t.numRows ∧
      t.cx ≤ rowLen t t.cy ∧ t.cx ≤ fiftyRowState.cx ∧
      (∀ k : Int, 1 ≤ k → k ≤ fiftyRowState.screenRows →
        t.cx ≤ rowLen fiftyRowState
          (min (min (fiftyRowState.rowOff + fiftyRowState.screenRows - 1)
            fiftyRowState.numRows + k) fiftyRowState.numRows)) ∧
      (t.cx = fiftyRowState.cx ∨ ∃ k : Int, 1 ≤ k ∧ k ≤ fiftyRowState.screenRows ∧
        t.cx = rowLen fiftyRowState
          (min (min (fiftyRowState.rowOff + fiftyRowState.screenRows - 1)
            fiftyRowState.numRows + k) fiftyRowState.numRows)) ∧
      (fiftyRowState.numRows = 50 → fiftyRowState.screenRows = 20 →
        fiftyRowState.rowOff = 0 → t.cy = 39) :=
  pageDown_spec fiftyRowState (by decide) (by decide) (by decide)

/-! ## Key dispatch: lemmas -/

theorem editorInsertChar_in_row_eq (s : EditorConfig) (c : Nat) (hwf : DocWF s)
    (h0 : 0 ≤ s.cy) (hlt : s.cy < s.numRows) (row : Str)
    (hrow : s.rows.getI s.cy = some row) :
    editorInsertChar s c = some { s with
      rows := StringArray.alloc
        (s.rows.elems.set s.cy.toNat (strInsert row (clampAt row s.cx).toNat c)),
      renderRows := StringArray.alloc (s.renderRows.elems.set s.cy.toNat
        (expandTabs (strInsert row (clampAt row s.cx).toNat c))),
      cx := s.cx + 1 } := by
  obtain ⟨hn, hmax, hrows, hrend⟩ := hwf
  have hne : ¬ s.cy = s.numRows := by omega
  have hidx : toUint s.cy = s.cy.toNat := toUint_of_range s.cy h0 (by omega)
  have hget : s.rows.get? s.cy.toNat = some row := by
    simpa [StringArray.getI, not_lt.mpr h0] using hrow
  have hlt2 : s.cy.toNat < s.renderRows.size := by omega
  simp only [editorInsertChar, if_neg hne, Option.bind_eq_bind, Option.some_bind, hidx,
    editorRowInsertChar_eq s s.cy.toNat s.cx c row hget hlt2]
  rfl

theorem editorInsertChar_cursorInv (s : EditorConfig) (c : Nat) (hwf : DocWF s)
    (hinv : CursorInv s) (htrail : s.cy = s.numRows → s.cx = 0) :
    ∃ t, editorInsertChar s c = some t ∧ CursorInv t := by
  obtain ⟨h0, h1, hcx⟩ := hinv
  have hwf' := hwf
  obtain ⟨hn, hmax, hrows, hrend⟩ := hwf'
  have hneg : ¬ s.cy < 0 := by omega
  by_cases hcy : s.cy = s.numRows
  · have hz := htrail hcy
    have hlen1 : s.cy.toNat = s.rows.elems.length := by
      rw [← StringArray.size_eq_elems]
      omega
    refine ⟨_, editorInsertChar_trailing_eq s c hwf hcy, ?_⟩
    refine ⟨h0, by show s.cy ≤ s.numRows + 1; omega, fun _ => ?_⟩
    have hlen : rowLen { s with
        rows := StringArray.alloc ((s.rows.elems ++ [[]]).set s.rows.elems.length
          (strInsert [] (clampAt [] s.cx).toNat c)),
        renderRows := StringArray.alloc ((s.renderRows.elems ++ [expandTabs []]).set
          s.rows.elems.length (expandTabs (strInsert [] (clampAt [] s.cx).toNat c))),
        numRows := s.numRows + 1,
        cx := s.cx + 1 } s.cy = 1 := by
      simp [rowLen, StringArray.getI, hneg, hlen1, strInsert, clampAt, hz]
    show 0 ≤ s.cx + 1 ∧ s.cx + 1 ≤ _
    rw [hlen]
    omega
  · have hlt : s.cy < s.numRows := by omega
    obtain ⟨hcx0, hcx1⟩ := hcx hlt
    obtain ⟨row, hrow⟩ := s.rows.getI_isSome s.cy h0 (by omega)
    rw [rowLen_of_getI s s.cy row hrow] at hcx1
    have hi : s.cy.toNat < s.rows.elems.length := by
      rw [← StringArray.size_eq_elems]
      omega
    refine ⟨_, editorInsertChar_in_row_eq s c hwf h0 hlt row hrow, ?_⟩
    refine ⟨h0, h1, fun _ => ?_⟩
    have hlen : rowLen { s with
        rows := StringArray.alloc
          (s.rows.elems.set s.cy.toNat (strInsert row (clampAt row s.cx).toNat c)),
        renderRows := StringArray.alloc (s.renderRows.elems.set s.cy.toNat
          (expandTabs (strInsert row (clampAt row s.cx).toNat c))),
        cx := s.cx + 1 } s.cy = (row.length : Int) + 1 := by
      have hl := strInsert_length row (clampAt row s.cx).toNat c (clampAt_toNat_le row s.cx)
      simp [rowLen, StringArray.getI, hneg, hi, hl]
    show 0 ≤ s.cx + 1 ∧ s.cx + 1 ≤ _
    rw [hlen]
    omega

theorem cursor_cx_nonneg (s : EditorConfig) (hinv : CursorInv s)
    (htrail : s.cy = s.numRows → s.cx = 0) : 0 ≤ s.cx := by
  obtain ⟨_, h1, hcx⟩ := hinv
  by_cases hcy : s.cy = s.numRows
  · rw [htrail hcy]
  · exact (hcx (by omega)).1

theorem cursorInv_of_bounds (t : EditorConfig) (h0 : 0 ≤ t.cy) (h1 : t.cy ≤ t.numRows)
    (h2 : 0 ≤ t.cx) (h3 : t.cx ≤ rowLen t t.cy) : CursorInv t :=
  ⟨h0, h1, fun _ => ⟨h2, h3⟩⟩

theorem processKeypress_default (s : EditorConfig) (c : Int)
    (h1 : c ≠ 13) (h2 : c ≠ CTRL_KEY 113) (h3 : c ≠ HOME_KEY) (h4 : c ≠ END_KEY)
    (h5 : c ≠ BACKSPACE) (h6 : c ≠ CTRL_KEY 104) (h7 : c ≠ DEL_KEY) (h8 : c ≠ PAGE_UP)
    (h9 : c ≠ PAGE_DOWN) (h10 : c ≠ ARROW_LEFT) (h11 : c ≠ ARROW_RIGHT)
    (h12 : c ≠ ARROW_UP) (h13 : c ≠ ARROW_DOWN) (h14 : c ≠ CTRL_KEY 108) (h15 : c ≠ ESC) :
    editorProcessKeypress s c = Outcome.ofOption (editorInsertChar s (intToChar c)) := by
  simp [editorProcessKeypress, h1, h2, h3, h4, h5, h6, h7, h8, h9, h10, h11, h12, h13,
    h14, h15]

theorem processKeypress_arrow (s : EditorConfig) (c : Int)
    (hkey : c = ARROW_LEFT ∨ c = ARROW_RIGHT ∨ c = ARROW_UP ∨ c = ARROW_DOWN) :
    editorProcessKeypress s c = Outcome.ofOption (editorMoveCursor s c) := by
  rcases hkey with rfl | rfl | rfl | rfl <;>
    simp [editorProcessKeypress, CTRL_KEY_q, CTRL_KEY_h, HOME_KEY, END_KEY, BACKSPACE,
      DEL_KEY, PAGE_UP, PAGE_DOWN, ARROW_LEFT, ARROW_RIGHT, ARROW_UP, ARROW_DOWN]

theorem processKeypress_page (s : EditorConfig) (c : Int) (hkey : c = PAGE_UP ∨ c = PAGE_DOWN) :
    editorProcessKeypress s c = Outcome.ofOption (pageMove s c) := by
  rcases hkey with rfl | rfl <;>
    simp [editorProcessKeypress, CTRL_KEY_q, CTRL_KEY_h, HOME_KEY, END_KEY, BACKSPACE,
      DEL_KEY, PAGE_UP, PAGE_DOWN]

theorem processKeypress_noop (s : EditorConfig) (c : Int)
    (hkey : c = 13 ∨ c = BACKSPACE ∨ c = CTRL_KEY 104 ∨ c = DEL_KEY ∨ c = CTRL_KEY 108 ∨
      c = ESC) :
    editorProcessKeypress s c = Outcome.running s := by
  rcases hkey with rfl | rfl | rfl | rfl | rfl | rfl <;>
    simp [editorProcessKeypress, CTRL_KEY_q, CTRL_KEY_h, CTRL_KEY_l, HOME_KEY, END_KEY,
      BACKSPACE, DEL_KEY, PAGE_UP, PAGE_DOWN, ARROW_LEFT, ARROW_RIGHT, ARROW_UP,
      ARROW_DOWN, ESC]

theorem processKeypress_home (s : EditorConfig) :
    editorProcessKeypress s HOME_KEY = Outcome.running { s with cx := 0 } := by
  simp [editorProcessKeypress, CTRL_KEY_q, HOME_KEY]

theorem processKeypress_end (s : EditorConfig) :
    editorProcessKeypress s END_KEY = Outcome.ofOption
      ((s.rows.getI s.cy).map (fun r => { s with cx := (r.length : Int) })) := by
  simp [editorProcessKeypress, CTRL_KEY_q, HOME_KEY, END_KEY]

/-- C3 (the code at the failing input): the editor is started without a file
on a 24 by 80 terminal and the keys `x` and Down are pressed.  The state that
the refresh then leaves is well formed and satisfies the cursor invariant and
`rowOff <= cy < rowOff + screenRows` with `screenRows >= 1`; its cursor is on
the trailing row (`cy == numRows == 1`).  The End key, which is not Quit, makes
`editorProcessKeypress` read the length of `rows[1]`, which does not exist:
the dispatch returns no state, so none that satisfies the cursor invariant.
`editorMoveCursor` tests `cy >= numRows` before the same read and returns. -/
theorem end_key_escapes_cursor_invariant :
    editorScroll (initEditor 24 80) = some (initEditor 24 80) ∧
    runKeys (initEditor 24 80) [120, ARROW_DOWN] = Outcome.running typedThenDown ∧
    DocWF typedThenDown ∧ CursorInv typedThenDown ∧
    typedThenDown.rowOff ≤ typedThenDown.cy ∧
    typedThenDown.cy < typedThenDown.rowOff + typedThenDown.screenRows ∧
    1 ≤ typedThenDown.screenRows ∧ END_KEY ≠ CTRL_KEY 113 ∧
    typedThenDown.cy = typedThenDown.numRows ∧
    typedThenDown.rows.getI typedThenDown.cy = none ∧
    editorProcessKeypress typedThenDown END_KEY = Outcome.fault ∧
    (¬ ∃ t, editorProcessKeypress typedThenDown END_KEY = Outcome.running t) ∧
    editorMoveCursor typedThenDown ARROW_RIGHT = some typedThenDown := by
  refine ⟨by decide, by decide, by decide, by decide, by decide, by decide, by decide,
    by decide, by decide, by decide, by decide, ?_, by decide⟩
  rintro ⟨t, ht⟩
  have hf : editorProcessKeypress typedThenDown END_KEY = Outcome.fault := by decide
  rw [hf] at ht
  exact Outcome.noConfusion ht

/-- Every key but End on the trailing row keeps the cursor invariant: for
every well-formed editor state that satisfies the cursor invariant, has
`cx == 0` when the cursor is on the trailing row (`cy == numRows`), and has
`0 <= rowOff <= cy < rowOff + screenRows` with `screenRows >= 1`, and for every
key other than Quit and other than End pressed on the trailing row,
`editorProcessKeypress` returns a state with `0 <= cy <= numRows` and, when
`cy < numRows`, `0 <= cx <= length(rows[cy])`. -/
theorem processKeypress_keeps_cursor_invariant (s : EditorConfig) (c : Int)
    (hwf : DocWF s) (hinv : CursorInv s) (htrail : s.cy = s.numRows → s.cx = 0)
    (hro : 0 ≤ s.rowOff) (hv1 : s.rowOff ≤ s.cy) (hv2 : s.cy < s.rowOff + s.screenRows)
    (hsr : 1 ≤ s.screenRows) (hquit : c ≠ CTRL_KEY 113)
    (hend : ¬ (c = END_KEY ∧ s.cy = s.numRows)) :
    ∃ t, editorProcessKeypress s c = Outcome.running t ∧
      0 ≤ t.cy ∧ t.cy ≤ t.numRows ∧ (t.cy < t.numRows → 0 ≤ t.cx ∧ t.cx ≤ rowLen t t.cy) := by
  have hcx0 := cursor_cx_nonneg s hinv htrail
  have hinv' := hinv
  obtain ⟨h0, h1, hcx⟩ := hinv'
  obtain ⟨k, hk⟩ : ∃ k : Nat, s.screenRows.toNat = k + 1 :=
    ⟨(s.screenRows - 1).toNat, by omega⟩
  have hnneg : ¬ (s.screenRows < 0) := by omega
  by_cases hnoop : c = 13 ∨ c = BACKSPACE ∨ c = CTRL_KEY 104 ∨ c = DEL_KEY ∨
      c = CTRL_KEY 108 ∨ c = ESC
  · exact ⟨s, processKeypress_noop s c hnoop, hinv⟩
  by_cases hhome : c = HOME_KEY
  · subst hhome
    exact ⟨_, processKeypress_home s, h0, h1, fun _ => ⟨le_rfl, rowLen_nonneg s s.cy⟩⟩
  by_cases hendk : c = END_KEY
  · subst hendk
    have hlt : s.cy < s.numRows := by
      have : ¬ s.cy = s.numRows := fun e => hend ⟨rfl, e⟩
      omega
    obtain ⟨r, hr⟩ := s.rows.getI_isSome s.cy h0 (by rw [hwf.2.2.1]; exact hlt)
    refine ⟨{ s with cx := (r.length : Int) }, ?_, h0, h1, fun _ => ⟨?_, ?_⟩⟩
    · rw [processKeypress_end, hr]
      rfl
    · exact Int.natCast_nonneg _
    · exact le_of_eq (rowLen_of_getI s s.cy r hr).symm
  by_cases hpage : c = PAGE_UP ∨ c = PAGE_DOWN
  · rw [processKeypress_page s c hpage]
    rcases hpage with rfl | rfl
    · have hpm : pageMove s PAGE_UP
          = moveCursorTimes ARROW_UP (k + 1) { s with cy := s.rowOff } := by
        simp [pageMove, hnneg, hk]
      obtain ⟨t, ht, _, a0, a1, a2, a3⟩ :=
        moveCursorTimes_inv ARROW_UP (Or.inr (Or.inr (Or.inl rfl))) k
          { s with cy := s.rowOff } hwf hro (by show s.rowOff ≤ s.numRows; omega) hcx0
      exact ⟨t, by rw [hpm, ht]; rfl, a0, a1, fun _ => ⟨a2, a3⟩⟩
    · have hne : ¬ (PAGE_DOWN = PAGE_UP) := by decide
      by_cases hgt : s.rowOff + s.screenRows - 1 > s.numRows
      · have hpm : pageMove s PAGE_DOWN
            = moveCursorTimes ARROW_DOWN (k + 1) { s with cy := s.numRows } := by
          simp [pageMove, hne, hgt, hnneg, hk]
        obtain ⟨t, ht, _, a0, a1, a2, a3⟩ :=
          moveCursorTimes_inv ARROW_DOWN (Or.inr (Or.inr (Or.inr rfl))) k
            { s with cy := s.numRows } hwf hwf.1 le_rfl hcx0
        exact ⟨t, by rw [hpm, ht]; rfl, a0, a1, fun _ => ⟨a2, a3⟩⟩
      · have hpm : pageMove s PAGE_DOWN
            = moveCursorTimes ARROW_DOWN (k + 1)
                { s with cy := s.rowOff + s.screenRows - 1 } := by
          simp [pageMove, hne, hgt, hnneg, hk]
        obtain ⟨t, ht, _, a0, a1, a2, a3⟩ :=
          moveCursorTimes_inv ARROW_DOWN (Or.inr (Or.inr (Or.inr rfl))) k
            { s with cy := s.rowOff + s.screenRows - 1 } hwf
            (by show 0 ≤ s.rowOff + s.screenRows - 1; omega)
            (by show s.rowOff + s.screenRows - 1 ≤ s.numRows; omega) hcx0
        exact ⟨t, by rw [hpm, ht]; rfl, a0, a1, fun _ => ⟨a2, a3⟩⟩
  by_cases harrow : c = ARROW_LEFT ∨ c = ARROW_RIGHT ∨ c = ARROW_UP ∨ c = ARROW_DOWN
  · obtain ⟨t, ht, _, a0, a1, a2, a3⟩ := editorMoveCursor_inv s c harrow hwf h0 h1 hcx0
    exact ⟨t, by rw [processKeypress_arrow s c harrow, ht]; rfl, a0, a1, fun _ => ⟨a2, a3⟩⟩
  · simp only [not_or] at hnoop hpage harrow
    obtain ⟨n1, n2, n3, n4, n5, n6⟩ := hnoop
    obtain ⟨t, ht, hti⟩ := editorInsertChar_cursorInv s (intToChar c) hwf hinv htrail
    refine ⟨t, ?_, hti⟩
    rw [processKeypress_default s c n1 hquit hhome hendk n2 n3 n4 hpage.1 hpage.2
      harrow.1 harrow.2.1 harrow.2.2.1 harrow.2.2.2 n5 n6, ht]
    rfl

theorem processKeypress_keeps_cursor_invariant_witness :
    ∃ t, editorProcessKeypress (threeRowState 0 3 2 0 2 4) 120 = Outcome.running t ∧
      0 ≤ t.cy ∧ t.cy ≤ t.numRows ∧ (t.cy < t.numRows → 0 ≤ t.cx ∧ t.cx ≤ rowLen t t.cy) :=
  processKeypress_keeps_cursor_invariant (threeRowState 0 3 2 0 2 4) 120 (by decide)
    (by decide) (by decide) (by decide) (by decide) (by decide) (by decide) (by decide)
    (by decide)

/-! ## End key, scroll frame and inert keys -/

theorem scrollOffsets_frame (s : EditorConfig) :
    (scrollOffsets s).cx = s.cx ∧ (scrollOffsets s).cy = s.cy ∧ (scrollOffsets s).rx = s.rx ∧
    (scrollOffsets s).screenRows = s.screenRows ∧
    (scrollOffsets s).screenCols = s.screenCols ∧ (scrollOffsets s).numRows = s.numRows ∧
    (scrollOffsets s).rows = s.rows ∧ (scrollOffsets s).renderRows = s.renderRows ∧
    (scrollOffsets s).filename = s.filename ∧ (scrollOffsets s).statusMsg = s.statusMsg ∧
    (scrollOffsets s).statusMsgTime = s.statusMsgTime := by
  simp only [scrollOffsets]
  split_ifs <;> simp

theorem scrollOffsets_minimal (s : EditorConfig) (hr : 1 ≤ s.screenRows)
    (hcols : 1 ≤ s.screenCols) :
    (s.rowOff ≤ s.cy → s.cy < s.rowOff + s.screenRows → (scrollOffsets s).rowOff = s.rowOff) ∧
    (s.cy < s.rowOff → (scrollOffsets s).rowOff = s.cy) ∧
    (s.cy ≥ s.rowOff + s.screenRows → (scrollOffsets s).rowOff = s.cy - s.screenRows + 1) ∧
    (s.colOff ≤ s.rx → s.rx < s.colOff + s.screenCols → (scrollOffsets s).colOff = s.colOff) ∧
    (s.rx < s.colOff → (scrollOffsets s).colOff = s.rx) ∧
    (s.rx ≥ s.colOff + s.screenCols → (scrollOffsets s).colOff = s.rx - s.screenCols + 1) := by
  simp only [scrollOffsets]
  split_ifs <;> simp_all <;> omega

theorem scrollRx_spec (s u : EditorConfig) (h : scrollRx s = some u) :
    u = { s with rx := u.rx } ∧
    (s.cy < s.numRows → ∃ row, s.rows.getI s.cy = some row ∧
      editorRowCxToRx row s.cx = some u.rx) ∧
    (¬ s.cy < s.numRows → u.rx = 0) := by
  unfold scrollRx at h
  simp only at h
  split_ifs at h with hlt
  · simp only [Option.bind_eq_bind, Option.bind_eq_some, Option.pure_def,
      Option.some.injEq] at h
    obtain ⟨row, hrow, rx, hrx, rfl⟩ := h
    exact ⟨rfl, fun _ => ⟨row, hrow, hrx⟩, fun hn => absurd hlt hn⟩
  · simp only [Option.pure_def, Option.some.injEq] at h
    subst h
    exact ⟨rfl, fun hl => absurd hl hlt, fun _ => rfl⟩

theorem DocSync.renderRow (s : EditorConfig) (hsync : DocSync s) (i : Int) (row : Str)
    (hrow : s.rows.getI i = some row) : s.renderRows.getI i = some (expandTabs row) := by
  obtain ⟨_, h2⟩ := hsync
  unfold StringArray.getI at hrow ⊢
  split_ifs at hrow ⊢ with hneg
  rw [StringArray.get?_eq_elems] at hrow ⊢
  rw [h2, List.getElem?_map, hrow]
  rfl

/-- C11: in every well-formed document whose render rows are in step with its
rows, and for every cursor with `0 <= cy < numRows`, the End key sets `cx` to
`length(rows[cy])` and changes nothing else, and the `editorScroll` that
follows gives `rx = length(renderRows[cy])` and leaves the cursor where it is;
on the three-row document `a<TAB>b`, `hello`, empty row, from `(0, 0)`, the
keys Down, Down, End (each followed by its `editorScroll`) end with `cy = 2`,
`cx = 0`, `rx = 0`. -/
theorem end_key_spec (s : EditorConfig) (hwf : DocWF s) (hsync : DocSync s) (h0 : 0 ≤ s.cy)
    (hlt : s.cy < s.numRows) :
    ∃ row render u, s.rows.getI s.cy = some row ∧ s.renderRows.getI s.cy = some render ∧
      editorProcessKeypress s END_KEY = Outcome.running { s with cx := (row.length : Int) } ∧
      editorScroll { s with cx := (row.length : Int) } = some u ∧
      u.rx = (render.length : Int) ∧ u.cx = (row.length : Int) ∧ u.cy = s.cy ∧
      (runKeys (threeRowState 0 0 0 0 22 80) [ARROW_DOWN, ARROW_DOWN, END_KEY]).state?.map
        (fun t => (t.cy, t.cx, t.rx)) = some (2, 0, 0) := by
  obtain ⟨row, hrow⟩ := s.rows.getI_isSome s.cy h0 (by rw [hwf.2.2.1]; exact hlt)
  have hrender := hsync.renderRow s s.cy row hrow
  have hrx : editorRowCxToRx row (row.length : Int)
      = some ((expandTabs (row.take row.length)).length : Int) :=
    editorRowCxToRx_nat row row.length le_rfl
  rw [List.take_length] at hrx
  have hsrx : scrollRx { s with cx := (row.length : Int) }
      = some { s with cx := (row.length : Int), rx := ((expandTabs row).length : Int) } := by
    simp [scrollRx, hlt, hrow, hrx]
  obtain ⟨f1, f2, f3, _⟩ := scrollOffsets_frame
    { s with cx := (row.length : Int), rx := ((expandTabs row).length : Int) }
  refine ⟨row, expandTabs row, _, hrow, hrender, ?_, by simp [editorScroll, hsrx], f3, f1,
    f2, by decide⟩
  rw [processKeypress_end, hrow]
  rfl

theorem end_key_spec_witness :
    ∃ row render u, (threeRowState 0 0 0 0 22 80).rows.getI (threeRowState 0 0 0 0 22 80).cy
        = some row ∧
      (threeRowState 0 0 0 0 22 80).renderRows.getI (threeRowState 0 0 0 0 22 80).cy
        = some render ∧
      editorProcessKeypress (threeRowState 0 0 0 0 22 80) END_KEY
        = Outcome.running { threeRowState 0 0 0 0 22 80 with cx := (row.length : Int) } ∧
      editorScroll { threeRowState 0 0 0 0 22 80 with cx := (row.length : Int) } = some u ∧
      u.rx = (render.length : Int) ∧ u.cx = (row.length : Int) ∧
      u.cy = (threeRowState 0 0 0 0 22 80).cy ∧
      (runKeys (threeRowState 0 0 0 0 22 80) [ARROW_DOWN, ARROW_DOWN, END_KEY]).state?.map
        (fun t => (t.cy, t.cx, t.rx)) = some (2, 0, 0) :=
  end_key_spec (threeRowState 0 0 0 0 22 80) (by decide) (by decide) (by decide) (by decide)

/-- C13: for every state with `screenRows >= 1` and `screenCols >= 1`, every
state `t` that `editorScroll` returns has `rowOff` unchanged when
`rowOff <= cy < rowOff + screenRows`, equal to `cy` when `cy < rowOff`, and
equal to `cy - screenRows + 1` when `cy >= rowOff + screenRows`; `colOff` is
treated the same way against the new `rx` and `screenCols`; `rx` is
`editorRowCxToRx(rows[cy], cx)` when `cy < numRows` and 0 otherwise; and no
field other than `rx`, `rowOff` and `colOff` changes.  `editorScroll` does
return when the document is well formed and the cursor invariant holds. -/
theorem editorScroll_minimal_move (s : EditorConfig) (hr : 1 ≤ s.screenRows)
    (hcols : 1 ≤ s.screenCols) :
    (∀ t, editorScroll s = some t →
      (s.rowOff ≤ s.cy → s.cy < s.rowOff + s.screenRows → t.rowOff = s.rowOff) ∧
      (s.cy < s.rowOff → t.rowOff = s.cy) ∧
      (s.cy ≥ s.rowOff + s.screenRows → t.rowOff = s.cy - s.screenRows + 1) ∧
      (s.colOff ≤ t.rx → t.rx < s.colOff + s.screenCols → t.colOff = s.colOff) ∧
      (t.rx < s.colOff → t.colOff = t.rx) ∧
      (t.rx ≥ s.colOff + s.screenCols → t.colOff = t.rx - s.screenCols + 1) ∧
      (s.cy < s.numRows → ∃ row, s.rows.getI s.cy = some row ∧
        editorRowCxToRx row s.cx = some t.rx) ∧
      (¬ s.cy < s.numRows → t.rx = 0) ∧
      t.cx = s.cx ∧ t.cy = s.cy ∧ t.screenRows = s.screenRows ∧
      t.screenCols = s.screenCols ∧ t.numRows = s.numRows ∧ t.rows = s.rows ∧
      t.renderRows = s.renderRows ∧ t.filename = s.filename ∧
      t.statusMsg = s.statusMsg ∧ t.statusMsgTime = s.statusMsgTime) ∧
    (DocWF s → CursorInv s → ∃ t, editorScroll s = some t) := by
  constructor
  · intro t ht
    simp only [editorScroll, Option.map_eq_some'] at ht
    obtain ⟨u, hu, rfl⟩ := ht
    obtain ⟨hueq, hrx1, hrx2⟩ := scrollRx_spec s u hu
    have hu1 : u.rowOff = s.rowOff ∧ u.cy = s.cy ∧ u.colOff = s.colOff ∧
        u.screenRows = s.screenRows ∧ u.screenCols = s.screenCols ∧ u.cx = s.cx ∧
        u.numRows = s.numRows ∧ u.rows = s.rows ∧ u.renderRows = s.renderRows ∧
        u.filename = s.filename ∧ u.statusMsg = s.statusMsg ∧
        u.statusMsgTime = s.statusMsgTime := by
      rw [hueq]
      exact ⟨rfl, rfl, rfl, rfl, rfl, rfl, rfl, rfl, rfl, rfl, rfl, rfl⟩
    obtain ⟨e1, e2, e3, e4, e5, e6, e7, e8, e9, e10, e11, e12⟩ := hu1
    obtain ⟨m1, m2, m3, m4, m5, m6⟩ :=
      scrollOffsets_minimal u (by rw [e4]; exact hr) (by rw [e5]; exact hcols)
    obtain ⟨f1, f2, f3, f4, f5, f6, f7, f8, f9, f10, f11⟩ := scrollOffsets_frame u
    simp only [e1, e2, e3, e4, e5] at m1 m2 m3 m4 m5 m6
    rw [f3]
    exact ⟨m1, m2, m3, m4, m5, m6, hrx1, hrx2, f1.trans e6, f2.trans e2, f4.trans e4,
      f5.trans e5, f6.trans e7, f7.trans e8, f8.trans e9, f9.trans e10, f10.trans e11,
      f11.trans e12⟩
  · intro hwf hc
    obtain ⟨rx, hrx⟩ := scrollRx_total s hwf hc
    exact ⟨scrollOffsets { s with rx := rx }, by simp [editorScroll, hrx]⟩

theorem editorScroll_minimal_move_witness :
    1 ≤ (threeRowState 5 1 2 9 1 3).screenRows ∧ 1 ≤ (threeRowState 5 1 2 9 1 3).screenCols ∧
    ∃ t, editorScroll (threeRowState 5 1 2 9 1 3) = some t ∧
      t.rowOff = (threeRowState 5 1 2 9 1 3).cy ∧
      t.cx = (threeRowState 5 1 2 9 1 3).cx ∧ t.cy = (threeRowState 5 1 2 9 1 3).cy :=
  ⟨by decide, by decide,
    (fun h => (h.2 (by decide) (by decide)).elim
      (fun t ht => ⟨t, ht, (h.1 t ht).2.1 (by decide), (h.1 t ht).2.2.2.2.2.2.2.2.1,
        (h.1 t ht).2.2.2.2.2.2.2.2.2.1⟩))
    (editorScroll_minimal_move (threeRowState 5 1 2 9 1 3) (by decide) (by decide))⟩

/-- C17: for every editor state, Enter (13), Backspace (127), Ctrl-H, Delete
(`DEL_KEY`), Ctrl-L and a bare ESC (27) dispatched through
`editorProcessKeypress` return the very same state: rows, render rows,
`numRows`, cursor and offsets are all unchanged. -/
theorem inert_keys_leave_state_unchanged (s : EditorConfig) (c : Int)
    (hkey : c = 13 ∨ c = 127 ∨ c = CTRL_KEY 104 ∨ c = DEL_KEY ∨ c = CTRL_KEY 108 ∨ c = 27) :
    editorProcessKeypress s c = Outcome.running s := by
  have hback : BACKSPACE = 127 := rfl
  have hesc : ESC = 27 := rfl
  rw [← hback, ← hesc] at hkey
  exact processKeypress_noop s c hkey

theorem inert_keys_leave_state_unchanged_witness :
    editorProcessKeypress (threeRowState 2 1 0 0 22 80) 127
      = Outcome.running (threeRowState 2 1 0 0 22 80) :=
  inert_keys_leave_state_unchanged (threeRowState 2 1 0 0 22 80) 127 (by decide)

/-! ## Arrow Left and Arrow Right -/

theorem editorMoveCursor_eq_of_switch (s s1 : EditorConfig) (key : Int)
    (hsw : moveCursorSwitch s key = some s1) (hwf1 : DocWF s1) (h0 : 0 ≤ s1.cy)
    (h1 : s1.cy ≤ s1.numRows) (hle : s1.cx ≤ rowLen s1 s1.cy) :
    editorMoveCursor s key = some s1 := by
  simp only [editorMoveCursor, hsw, Option.some_bind, clampCursor_eq s1 hwf1 h0 h1,
    if_neg (not_lt.mpr hle)]

theorem editorMoveCursor_left_eq (s : EditorConfig) (hwf : DocWF s) (hinv : CursorInv s)
    (htrail : s.cy = s.numRows → s.cx = 0) :
    editorMoveCursor s ARROW_LEFT
      = some (if s.cx > 0 then { s with cx := s.cx - 1 }
          else if s.cy > 0 then { s with cy := s.cy - 1, cx := rowLen s (s.cy - 1) }
          else s) := by
  obtain ⟨h0, h1, hcx⟩ := hinv
  have hsw := moveCursorSwitch_left s hwf h1
  have hnn := rowLen_nonneg s s.cy
  apply editorMoveCursor_eq_of_switch s _ ARROW_LEFT hsw
  · split_ifs <;> exact hwf
  · split_ifs
    · exact h0
    · show 0 ≤ s.cy - 1
      omega
    · exact h0
  · split_ifs
    · exact h1
    · show s.cy - 1 ≤ s.numRows
      omega
    · exact h1
  · split_ifs with a b
    · show s.cx - 1 ≤ rowLen s s.cy
      by_cases hcy : s.cy = s.numRows
      · have := htrail hcy
        omega
      · have := (hcx (by omega)).2
        omega
    · exact le_rfl
    · show s.cx ≤ rowLen s s.cy
      omega

theorem editorMoveCursor_right_eq (s : EditorConfig) (hwf : DocWF s) (hinv : CursorInv s)
    (htrail : s.cy = s.numRows → s.cx = 0) :
    editorMoveCursor s ARROW_RIGHT
      = some (if s.cy ≥ s.numRows then s
          else if s.cx < rowLen s s.cy then { s with cx := s.cx + 1 }
          else if s.cx = rowLen s s.cy then { s with cy := s.cy + 1, cx := 0 }
          else s) := by
  obtain ⟨h0, h1, hcx⟩ := hinv
  have hsw := moveCursorSwitch_right s hwf h0
  have hnn := rowLen_nonneg s s.cy
  apply editorMoveCursor_eq_of_switch s _ ARROW_RIGHT hsw
  · split_ifs <;> exact hwf
  · split_ifs
    · exact h0
    · exact h0
    · show 0 ≤ s.cy + 1
      omega
    · exact h0
  · split_ifs with a
    · exact h1
    · exact h1
    · show s.cy + 1 ≤ s.numRows
      omega
    · exact h1
  · split_ifs with a b c
    · show s.cx ≤ rowLen s s.cy
      have := htrail (by omega)
      omega
    · show s.cx + 1 ≤ rowLen s s.cy
      omega
    · exact rowLen_nonneg s (s.cy + 1)
    · exact (hcx (by omega)).2

/-- C12 (as stated, refuted): on a two-row terminal (`screenRows = 0`) a file
whose only line is `hello` is loaded and the keys End and PageUp are pressed.
PageUp moves `cy` to `rowOff`, which the refresh has set to 1, and its loop of
Up moves runs zero times, so the cursor is on the trailing row
(`cy == numRows == 1`) at column 5: a state that satisfies the cursor
invariant.  There Arrow Left does not decrement `cx` to 4 and Arrow Right does
not leave the state alone: both end with `cx = 0`, because `editorMoveCursor`
finishes by bringing `cx` back to the length of the current row, which is 0
past the last row. -/
theorem arrow_keys_counterexample :
    editorAppendRow (initEditor 2 80) [104, 101, 108, 108, 111] = some helloLoaded ∧
    (editorScroll helloLoaded).map (fun s => runKeys s [END_KEY, PAGE_UP])
      = some (Outcome.running helloPastEnd) ∧
    DocWF helloPastEnd ∧ CursorInv helloPastEnd ∧
    helloPastEnd.cy = helloPastEnd.numRows ∧ helloPastEnd.cx = 5 ∧
    editorMoveCursor helloPastEnd ARROW_LEFT = some { helloPastEnd with cx := 0 } ∧
    ({ helloPastEnd with cx := 0 } : EditorConfig)
      ≠ { helloPastEnd with cx := helloPastEnd.cx - 1 } ∧
    editorMoveCursor helloPastEnd ARROW_RIGHT = some { helloPastEnd with cx := 0 } ∧
    ({ helloPastEnd with cx := 0 } : EditorConfig) ≠ helloPastEnd := by
  decide

/-- C12 (amended): for every well-formed state that satisfies the cursor
invariant and has `cx == 0` whenever `cy == numRows`, `editorMoveCursor`
returns and does this.  Arrow Left: `cx - 1` when `cx > 0`; the end of the
previous row (`cy - 1`, `cx = length(rows[cy - 1])`) when `cx == 0` and
`cy > 0`; no change at `(0, 0)`.  Arrow Right: `cx + 1` when `cy < numRows`
and `cx < length(rows[cy])`; the start of the next row (`cy + 1`, `cx = 0`)
when `cy < numRows` and `cx == length(rows[cy])`; no change when
`cy == numRows`.  Nothing but the cursor changes. -/
theorem arrow_left_right_spec (s : EditorConfig) (hwf : DocWF s) (hinv : CursorInv s)
    (htrail : s.cy = s.numRows → s.cx = 0) :
    (∃ t, editorMoveCursor s ARROW_LEFT = some t ∧
      (0 < s.cx → t = { s with cx := s.cx - 1 }) ∧
      (s.cx = 0 → 0 < s.cy → t = { s with cy := s.cy - 1, cx := rowLen s (s.cy - 1) }) ∧
      (s.cx = 0 → s.cy = 0 → t = s)) ∧
    (∃ t, editorMoveCursor s ARROW_RIGHT = some t ∧
      (s.cy < s.numRows → s.cx < rowLen s s.cy → t = { s with cx := s.cx + 1 }) ∧
      (s.cy < s.numRows → s.cx = rowLen s s.cy → t = { s with cy := s.cy + 1, cx := 0 }) ∧
      (s.cy = s.numRows → t = s)) := by
  constructor
  · refine ⟨_, editorMoveCursor_left_eq s hwf hinv htrail, ?_, ?_, ?_⟩
    · intro h
      rw [if_pos h]
    · intro h1 h2
      rw [if_neg (by omega), if_pos h2]
    · intro h1 h2
      rw [if_neg (by omega), if_neg (by omega)]
  · refine ⟨_, editorMoveCursor_right_eq s hwf hinv htrail, ?_, ?_, ?_⟩
    · intro h1 h2
      rw [if_neg (by omega), if_pos h2]
    · intro h1 h2
      rw [if_neg (by omega), if_neg (by omega), if_pos h2]
    · intro h
      rw [if_pos (by omega)]

theorem arrow_left_right_spec_witness :
    (∃ t, editorMoveCursor (threeRowState 0 1 0 0 4 80) ARROW_LEFT = some t ∧
      (0 < (threeRowState 0 1 0 0 4 80).cx →
        t = { threeRowState 0 1 0 0 4 80 with cx := (threeRowState 0 1 0 0 4 80).cx - 1 }) ∧
      ((threeRowState 0 1 0 0 4 80).cx = 0 → 0 < (threeRowState 0 1 0 0 4 80).cy →
        t = { threeRowState 0 1 0 0 4 80 with
              cy := (threeRowState 0 1 0 0 4 80).cy - 1,
              cx := rowLen (threeRowState 0 1 0 0 4 80)
                ((threeRowState 0 1 0 0 4 80).cy - 1) }) ∧
      ((threeRowState 0 1 0 0 4 80).cx = 0 → (threeRowState 0 1 0 0 4 80).cy = 0 →
        t = threeRowState 0 1 0 0 4 80)) ∧
    (∃ t, editorMoveCursor (threeRowState 0 1 0 0 4 80) ARROW_RIGHT = some t ∧
      ((threeRowState 0 1 0 0 4 80).cy < (threeRowState 0 1 0 0 4 80).numRows →
        (threeRowState 0 1 0 0 4 80).cx
          < rowLen (threeRowState 0 1 0 0 4 80) (threeRowState 0 1 0 0 4 80).cy →
        t = { threeRowState 0 1 0 0 4 80 with cx := (threeRowState 0 1 0 0 4 80).cx + 1 }) ∧
      ((threeRowState 0 1 0 0 4 80).cy < (threeRowState 0 1 0 0 4 80).numRows →
        (threeRowState 0 1 0 0 4 80).cx
          = rowLen (threeRowState 0 1 0 0 4 80) (threeRowState 0 1 0 0 4 80).cy →
        t = { threeRowState 0 1 0 0 4 80 with
              cy := (threeRowState 0 1 0 0 4 80).cy + 1, cx := 0 }) ∧
      ((threeRowState 0 1 0 0 4 80).cy = (threeRowState 0 1 0 0 4 80).numRows →
        t = threeRowState 0 1 0 0 4 80)) :=
  arrow_left_right_spec (threeRowState 0 1 0 0 4 80) (by decide) (by decide) (by decide)

/-! ## Drawing the rows -/

theorem foldlM_range_append (f : Nat → Str → Option Str) (line : Nat → Str) (n : Nat)
    (h : ∀ i, i < n → ∀ acc, f i acc = some (acc ++ line i)) (ab : Str) :
    (List.range n).foldlM (fun acc i => f i acc) ab
      = some (ab ++ ((List.range n).map line).flatten) := by
  induction n with
  | zero => simp
  | succ k ih =>
    have ih1 := ih (fun i hi acc => h i (Nat.lt_succ_of_lt hi) acc)
    rw [List.range_succ, List.foldlM_append, ih1]
    simp [h k (Nat.lt_succ_self k)]

theorem editorDrawRows_eq_lines (s : EditorConfig) (line : Nat → Str)
    (h : ∀ i, i < s.screenRows.toNat → ∀ acc,
      drawRow s (i : Int) acc = some (acc ++ (line i ++ CLEAR_LINE_CMD ++ CRLF)))
    (ab : Str) :
    editorDrawRows s ab = some (ab ++ ((List.range s.screenRows.toNat).map
      (fun i => line i ++ CLEAR_LINE_CMD ++ CRLF)).flatten) := by
  unfold editorDrawRows
  exact foldlM_range_append (fun i acc => drawRow s (i : Int) acc)
    (fun i => line i ++ CLEAR_LINE_CMD ++ CRLF) s.screenRows.toNat h ab

theorem appendFrom_slice (ab r : Str) (off sc : Int) (h0 : 0 ≤ off) (hsc : 0 ≤ sc) :
    appendFrom ab r off
        (if (if (r.length : Int) - off < 0 then 0 else (r.length : Int) - off) > sc then sc
          else (if (r.length : Int) - off < 0 then 0 else (r.length : Int) - off))
      = some (ab ++ visibleSlice r off sc) := by
  obtain ⟨o, rfl⟩ := Int.eq_ofNat_of_zero_le h0
  obtain ⟨c, rfl⟩ := Int.eq_ofNat_of_zero_le hsc
  simp only [visibleSlice, Int.toNat_ofNat]
  by_cases hlen : (r.length : Int) - (o : Int) < 0
  · have hd : r.drop o = [] := List.drop_of_length_le (by omega)
    simp only [if_pos hlen]
    by_cases hc : (0 : Int) > (c : Int)
    · omega
    · rw [if_neg hc]
      simp [appendFrom, hd]
  · simp only [if_neg hlen]
    have hol : o ≤ r.length := by omega
    have hdrop : (r ++ [0]).drop o = r.drop o ++ [0] := List.drop_append_of_le_length hol
    have hdl : (r.drop o).length = r.length - o := List.length_drop o r
    by_cases hgt : (r.length : Int) - (o : Int) > (c : Int)
    · rw [if_pos hgt]
      by_cases hz : (c : Int) = 0
      · have hc0 : c = 0 := by exact_mod_cast hz
        simp [appendFrom, hz, hc0]
      · have hbound : ¬ ((o : Int) < 0 ∨ (o : Int) + (c : Int) > (r.length : Int) + 1) := by
          omega
        have hneg : ¬ ((c : Int) < 0) := by omega
        simp only [appendFrom, if_neg hneg, if_neg hz, if_neg hbound, Int.toNat_ofNat, hdrop]
        rw [List.take_append_of_le_length (by omega)]
    · rw [if_neg hgt]
      by_cases hz : (r.length : Int) - (o : Int) = 0
      · have hd : r.drop o = [] := List.drop_of_length_le (by omega)
        simp [appendFrom, hz, hd]
      · have hbound : ¬ ((o : Int) < 0 ∨
            (o : Int) + ((r.length : Int) - (o : Int)) > (r.length : Int) + 1) := by
          omega
        have hneg : ¬ ((r.length : Int) - (o : Int) < 0) := by omega
        have hn : ((r.length : Int) - (o : Int)).toNat = r.length - o := by omega
        simp only [appendFrom, if_neg hneg, if_neg hz, if_neg hbound, Int.toNat_ofNat, hdrop,
          hn]
        rw [List.take_append_of_le_length (by omega), List.take_of_length_le (by omega),
          List.take_of_length_le (by omega)]

theorem appendFrom_initial (ab p : Str) (len : Int) (h0 : 0 ≤ len)
    (hle : len ≤ (p.length : Int)) :
    appendFrom ab p 0 len = some (ab ++ p.take len.toNat) := by
  obtain ⟨n, rfl⟩ := Int.eq_ofNat_of_zero_le h0
  have hn : n ≤ p.length := by exact_mod_cast hle
  by_cases hz : (n : Int) = 0
  · have hn0 : n = 0 := by exact_mod_cast hz
    simp [appendFrom, hn0]
  · have hneg : ¬ ((n : Int) < 0) := by omega
    have hbound : ¬ ((0 : Int) < 0 ∨ (0 : Int) + (n : Int) > (p.length : Int) + 1) := by omega
    simp only [appendFrom, if_neg hneg, if_neg hz, if_neg hbound, Int.toNat_ofNat,
      Int.toNat_zero, List.drop_zero]
    rw [List.take_append_of_le_length hn]

theorem drawRow_nonempty (s : EditorConfig) (i : Nat) (acc : Str) (hwf : DocWF s)
    (hne : s.numRows ≠ 0) (hro : 0 ≤ s.rowOff) (hco : 0 ≤ s.colOff) (hsc : 0 ≤ s.screenCols) :
    drawRow s (i : Int) acc = some (acc ++ (rowLineText s i ++ CLEAR_LINE_CMD ++ CRLF)) := by
  obtain ⟨_, _, _, hrend⟩ := hwf
  by_cases hge : ((i : Int) + s.rowOff) ≥ s.numRows
  · simp [drawRow, rowLineText, hge, hne]
  · obtain ⟨r, hr⟩ := s.renderRows.getI_isSome ((i : Int) + s.rowOff) (by omega) (by omega)
    simp only [drawRow, rowLineText, if_neg hge, hr, Option.some_bind, Option.bind_eq_bind,
      appendFrom_slice acc r s.colOff s.screenCols hco hsc, Option.pure_def,
      List.append_assoc]

theorem welcomeText_length : welcomeText.length = 28 := by decide

theorem drawWelcome_eq (s : EditorConfig) (acc : Str) (hsc : 0 ≤ s.screenCols) :
    drawWelcome s acc = some (acc ++ bannerLine s) := by
  have hlen : (([75, 105, 108, 111, 32, 101, 100, 105, 116, 111, 114, 32, 45, 45, 32,
      118, 101, 114, 115, 105, 111, 110, 32] ++ KILO_VERSION : Str).length : Int) = 28 := by
    decide
  have hb0 : 0 ≤ bannerLen s := by
    unfold bannerLen
    split_ifs <;> omega
  have hb28 : bannerLen s ≤ 28 := by
    unfold bannerLen
    split_ifs <;> omega
  have hbsc : bannerLen s ≤ s.screenCols := by
    unfold bannerLen
    split_ifs <;> omega
  have hpad : Int.tdiv (s.screenCols - bannerLen s) 2 = (s.screenCols - bannerLen s) / 2 :=
    Int.tdiv_eq_ediv (by omega) (by omega)
  have hwl : bannerLen s ≤ (welcomeText.length : Int) := by
    rw [welcomeText_length]
    exact hb28
  simp only [drawWelcome, hlen]
  rw [show (if (28 : Int) > s.screenCols then s.screenCols else 28) = bannerLen s from rfl,
    hpad]
  by_cases hp : (s.screenCols - bannerLen s) / 2 ≠ 0
  · have hneg : ¬ ((s.screenCols - bannerLen s) / 2 - 1 < 0) := by omega
    simp only [if_pos hp, if_neg hneg, bannerLine]
    rw [appendFrom_initial _ welcomeText (bannerLen s) hb0 hwl]
    simp
  · have hneg : ¬ ((s.screenCols - bannerLen s) / 2 < 0) := by omega
    have hz : (s.screenCols - bannerLen s) / 2 = 0 := by
      by_contra h
      exact hp h
    simp only [if_neg hp, if_neg hneg, bannerLine, hz]
    rw [appendFrom_initial _ welcomeText (bannerLen s) hb0 hwl]
    simp

theorem drawRow_empty (s : EditorConfig) (i : Nat) (acc : Str) (hempty : s.numRows = 0)
    (hro : 0 ≤ s.rowOff) (hsc : 0 ≤ s.screenCols) (hsr : 0 ≤ s.screenRows) :
    drawRow s (i : Int) acc
      = some (acc ++ (emptyDocLineText s i ++ CLEAR_LINE_CMD ++ CRLF)) := by
  have hge : ((i : Int) + s.rowOff) ≥ s.numRows := by omega
  have hdiv : Int.tdiv s.screenRows 3 = s.screenRows / 3 :=
    Int.tdiv_eq_ediv hsr (by omega)
  have hge0 : ((i : Int) + s.rowOff) ≥ 0 := by omega
  by_cases hi : (i : Int) = s.screenRows / 3
  · have hge1 : s.screenRows / 3 + s.rowOff ≥ 0 := by
      rw [← hi]
      exact hge0
    simp only [drawRow, emptyDocLineText, hempty, hdiv, hi, true_and, if_true, if_pos hge1,
      drawWelcome_eq s acc hsc, Option.bind_eq_bind, Option.some_bind, Option.pure_def,
      List.append_assoc]
  · simp only [drawRow, emptyDocLineText, hempty, hdiv, hi, and_false, if_false, if_pos hge0,
      Option.bind_eq_bind, Option.some_bind, Option.pure_def, List.append_assoc]

theorem editorDrawRows_nonempty (s : EditorConfig) (ab : Str) (hwf : DocWF s)
    (hne : s.numRows ≠ 0) (hro : 0 ≤ s.rowOff) (hco : 0 ≤ s.colOff) (hsc : 0 ≤ s.screenCols) :
    editorDrawRows s ab = some (ab ++ (((List.range s.screenRows.toNat).map (rowLineText s)).map
      (fun l => l ++ CLEAR_LINE_CMD ++ CRLF)).flatten) := by
  rw [editorDrawRows_eq_lines s (rowLineText s)
    (fun i _ acc => drawRow_nonempty s i acc hwf hne hro hco hsc) ab, List.map_map]
  rfl

theorem editorDrawRows_empty (s : EditorConfig) (ab : Str) (hempty : s.numRows = 0)
    (hro : 0 ≤ s.rowOff) (hsc : 0 ≤ s.screenCols) :
    editorDrawRows s ab = some (ab ++ (((List.range s.screenRows.toNat).map
      (emptyDocLineText s)).map (fun l => l ++ CLEAR_LINE_CMD ++ CRLF)).flatten) := by
  rw [editorDrawRows_eq_lines s (emptyDocLineText s)
    (fun i hi acc => drawRow_empty s i acc hempty hro hsc (by omega)) ab, List.map_map]
  rfl

theorem rowLineText_spec (s : EditorConfig) (i : Nat) (hwf : DocWF s) (hro : 0 ≤ s.rowOff) :
    (s.rowOff + (i : Int) < s.numRows → ∃ r, s.renderRows.getI (s.rowOff + (i : Int)) = some r ∧
      rowLineText s i = (r.drop s.colOff.toNat).take s.screenCols.toNat) ∧
    (s.numRows ≤ s.rowOff + (i : Int) → rowLineText s i = [126]) := by
  obtain ⟨_, _, _, hrend⟩ := hwf
  constructor
  · intro hlt
    obtain ⟨r, hr⟩ := s.renderRows.getI_isSome (s.rowOff + (i : Int)) (by omega) (by omega)
    refine ⟨r, hr, ?_⟩
    have hge : ¬ (((i : Int) + s.rowOff) ≥ s.numRows) := by omega
    rw [add_comm] at hr
    simp only [rowLineText, if_neg hge, hr, visibleSlice]
  · intro hle
    have hge : ((i : Int) + s.rowOff) ≥ s.numRows := by omega
    simp only [rowLineText, if_pos hge]

/-- C15: for every state with a non-empty document, `colOff >= 0` and
`screenCols >= 0` (the document well formed and `rowOff >= 0`, as `editorScroll`
leaves it before every call), `editorDrawRows` appends
exactly `screenRows` screen lines, each ended by the clear-to-end-of-line
control and CR LF; line `i` holds exactly the characters of
`renderRows[rowOff + i]` at render columns `[colOff, colOff + screenCols)`
(nothing when `colOff` is at or past the row's end) when
`rowOff + i < numRows`, and a single `~` otherwise. -/
theorem editorDrawRows_lines (s : EditorConfig) (ab : Str) (hwf : DocWF s)
    (hne : s.numRows ≠ 0) (hro : 0 ≤ s.rowOff) (hco : 0 ≤ s.colOff) (hsc : 0 ≤ s.screenCols) :
    ∃ lines : List Str, lines.length = s.screenRows.toNat ∧
      editorDrawRows s ab
        = some (ab ++ (lines.map (fun l => l ++ CLEAR_LINE_CMD ++ CRLF)).flatten) ∧
      ∀ i : Nat, i < s.screenRows.toNat →
        (s.rowOff + (i : Int) < s.numRows →
          ∃ r, s.renderRows.getI (s.rowOff + (i : Int)) = some r ∧
            lines[i]? = some ((r.drop s.colOff.toNat).take s.screenCols.toNat)) ∧
        (s.numRows ≤ s.rowOff + (i : Int) → lines[i]? = some [126]) := by
  refine ⟨(List.range s.screenRows.toNat).map (rowLineText s), by simp,
    editorDrawRows_nonempty s ab hwf hne hro hco hsc, ?_⟩
  intro i hi
  have hget : ((List.range s.screenRows.toNat).map (rowLineText s))[i]?
      = some (rowLineText s i) := by
    rw [List.getElem?_map, List.getElem?_range hi]
    rfl
  obtain ⟨h1, h2⟩ := rowLineText_spec s i hwf hro
  constructor
  · intro hlt
    obtain ⟨r, hr, he⟩ := h1 hlt
    exact ⟨r, hr, by rw [hget, he]⟩
  · intro hle
    rw [hget, h2 hle]

theorem editorDrawRows_lines_witness :
    ∃ lines : List Str, lines.length = (threeRowState 0 0 1 1 4 3).screenRows.toNat ∧
      editorDrawRows (threeRowState 0 0 1 1 4 3) [120]
        = some ([120] ++ (lines.map (fun l => l ++ CLEAR_LINE_CMD ++ CRLF)).flatten) ∧
      ∀ i : Nat, i < (threeRowState 0 0 1 1 4 3).screenRows.toNat →
        ((threeRowState 0 0 1 1 4 3).rowOff + (i : Int) < (threeRowState 0 0 1 1 4 3).numRows →
          ∃ r, (threeRowState 0 0 1 1 4 3).renderRows.getI
              ((threeRowState 0 0 1 1 4 3).rowOff + (i : Int)) = some r ∧
            lines[i]? = some ((r.drop (threeRowState 0 0 1 1 4 3).colOff.toNat).take
              (threeRowState 0 0 1 1 4 3).screenCols.toNat)) ∧
        ((threeRowState 0 0 1 1 4 3).numRows ≤ (threeRowState 0 0 1 1 4 3).rowOff + (i : Int) →
          lines[i]? = some [126]) :=
  editorDrawRows_lines (threeRowState 0 0 1 1 4 3) [120] (by decide) (by decide) (by decide)
    (by decide) (by decide)

/-! ## The welcome banner -/

/-- C16 (the code at the failing input): on the empty document of a terminal 10
columns wide, the text that `editorDrawStatusBar` emits between the
reverse-video-on and colour-reset controls is the whole 19-character status
`[No Name] - 0 lines`; it is not cut to `screenCols = 10`. -/
theorem statusBar_not_clipped :
    (initEditor 24 10).screenCols = 10 ∧
    editorDrawStatusBar (initEditor 24 10) []
      = INVERT_COLORS_CMD ++
        [91, 78, 111, 32, 78, 97, 109, 101, 93, 32, 45, 32, 48, 32, 108, 105, 110, 101, 115] ++
        RESET_COLORS_CMD ++ CRLF ∧
    ([91, 78, 111, 32, 78, 97, 109, 101, 93, 32, 45, 32, 48, 32, 108, 105, 110, 101, 115] :
      Str).length = 19 := by
  decide

/-! ## Composing the frame twice -/

theorem scrollOffsets_eq (s : EditorConfig) :
    scrollOffsets s = { s with
      rowOff := clampOff s.rowOff s.cy s.screenRows,
      colOff := clampOff s.colOff s.rx s.screenCols } := by
  simp only [scrollOffsets, clampOff]
  split_ifs <;> rfl

theorem clampOff_idem (off pos size : Int) :
    clampOff (clampOff off pos size) pos size = clampOff off pos size := by
  simp only [clampOff]
  split_ifs <;> omega

theorem scrollOffsets_idem (s : EditorConfig) :
    scrollOffsets (scrollOffsets s) = scrollOffsets s := by
  rw [scrollOffsets_eq (scrollOffsets s), scrollOffsets_eq s]
  simp only [clampOff_idem]

theorem scrollRx_unfold (s : EditorConfig) :
    scrollRx s = if s.cy < s.numRows then
        (s.rows.getI s.cy).bind (fun row =>
          (editorRowCxToRx row s.cx).bind (fun rx => some { s with rx := rx }))
      else some { s with rx := 0 } := rfl

theorem EditorConfig.with_rx_eta (x : EditorConfig) :
    ({ x with rx := x.rx } : EditorConfig) = x := by
  cases x
  rfl

theorem scrollRx_congr (s t u : EditorConfig) (hu : scrollRx s = some u) (hcy : t.cy = s.cy)
    (hcx : t.cx = s.cx) (hn : t.numRows = s.numRows) (hrows : t.rows = s.rows) :
    scrollRx t = some { t with rx := u.rx } := by
  obtain ⟨_, h1, h2⟩ := scrollRx_spec s u hu
  rw [scrollRx_unfold, hcy, hcx, hn, hrows]
  by_cases hlt : s.cy < s.numRows
  · obtain ⟨row, hrow, hrx⟩ := h1 hlt
    rw [if_pos hlt, hrow, Option.some_bind, hrx, Option.some_bind]
  · rw [if_neg hlt, h2 hlt]

theorem editorScroll_idem (s t : EditorConfig) (h : editorScroll s = some t) :
    editorScroll t = some t := by
  simp only [editorScroll, Option.map_eq_some'] at h
  obtain ⟨u, hu, rfl⟩ := h
  obtain ⟨hueq, _, _⟩ := scrollRx_spec s u hu
  obtain ⟨f1, f2, f3, _, _, f6, f7, _⟩ := scrollOffsets_frame u
  have hucy : u.cy = s.cy := by rw [hueq]
  have hucx : u.cx = s.cx := by rw [hueq]
  have hun : u.numRows = s.numRows := by rw [hueq]
  have hur : u.rows = s.rows := by rw [hueq]
  have hrx := scrollRx_congr s (scrollOffsets u) u hu (f2.trans hucy) (f1.trans hucx)
    (f6.trans hun) (f7.trans hur)
  rw [← f3, EditorConfig.with_rx_eta] at hrx
  simp only [editorScroll, hrx, Option.map_some', scrollOffsets_idem]

theorem scrollRx_total_nonneg (s : EditorConfig) (hwf : DocWF s) (hc : CursorInv s) :
    ∃ rx, 0 ≤ rx ∧ scrollRx s = some { s with rx := rx } := by
  obtain ⟨u, hu⟩ := scrollRx_total s hwf hc
  obtain ⟨h0, _, hcx⟩ := hc
  refine ⟨u, ?_, hu⟩
  obtain ⟨_, h1, h2⟩ := scrollRx_spec s _ hu
  by_cases hlt : s.cy < s.numRows
  · obtain ⟨row, hrow, hrx⟩ := h1 hlt
    obtain ⟨hcx0, hcx1⟩ := hcx hlt
    rw [rowLen_of_getI s s.cy row hrow] at hcx1
    obtain ⟨n, hn⟩ := Int.eq_ofNat_of_zero_le hcx0
    have hnl : n ≤ row.length := by rw [hn] at hcx1; exact_mod_cast hcx1
    rw [hn, editorRowCxToRx_nat row n hnl] at hrx
    have e : ((expandTabs (row.take n)).length : Int) = u := Option.some.inj hrx
    rw [← e]
    exact Int.natCast_nonneg _
  · have e : u = 0 := h2 hlt
    rw [e]

theorem clampOff_nonneg (off pos size : Int) (h0 : 0 ≤ off) (hp : 0 ≤ pos) (hs : 1 ≤ size) :
    0 ≤ clampOff off pos size := by
  simp only [clampOff]
  split_ifs <;> omega

theorem editorDrawMessageBar_total (s : EditorConfig) (now : Int) (ab : Str)
    (hsc : 0 ≤ s.screenCols) : ∃ out, editorDrawMessageBar s now ab = some out := by
  have hm0 : (0 : Int) ≤ min ((cstr s.statusMsg).length : Int) ((KILO_STATUS_SIZE : Int) - 1) :=
    le_min (Int.natCast_nonneg _) (by decide)
  have hm1 : min ((cstr s.statusMsg).length : Int) ((KILO_STATUS_SIZE : Int) - 1)
      ≤ ((cstr s.statusMsg).length : Int) := min_le_left _ _
  simp only [editorDrawMessageBar]
  split_ifs with h1 h2
  · exact ⟨_, appendFrom_initial _ _ _ hsc (le_trans (le_of_lt h1) hm1)⟩
  · exact ⟨_, rfl⟩
  · exact ⟨_, appendFrom_initial _ _ _ hm0 hm1⟩
  · exact ⟨_, rfl⟩

theorem composeFrame_total (s : EditorConfig) (now : Int) (hwf : DocWF s) (hro : 0 ≤ s.rowOff)
    (hco : 0 ≤ s.colOff) (hsc : 0 ≤ s.screenCols) : ∃ buf, composeFrame s now = some buf := by
  have hrows : ∃ ab1, editorDrawRows s (HIDE_CURSOR_CMD ++ CURSOR_TOP_LEFT_CMD) = some ab1 := by
    by_cases hempty : s.numRows = 0
    · exact ⟨_, editorDrawRows_empty s _ hempty hro hsc⟩
    · exact ⟨_, editorDrawRows_nonempty s _ hwf hempty hro hco hsc⟩
  obtain ⟨ab1, h1⟩ := hrows
  obtain ⟨ab3, h3⟩ := editorDrawMessageBar_total s now (editorDrawStatusBar s ab1) hsc
  refine ⟨ab3 ++ snprintfBuf 32 (cursorText s) ++ SHOW_CURSOR_CMD, ?_⟩
  simp only [composeFrame, h1, h3, Option.bind_eq_bind, Option.some_bind, Option.pure_def]

/-- C14: for every editor state and clock reading, when `editorRefreshScreen`
returns a state and an output buffer, running it again from that state (the
`rx`, `rowOff` and `colOff` it stored) at the same clock reading returns the
same state and a byte-identical buffer.  It does return when the document is
well formed, the cursor invariant holds, `rowOff >= 0`, `colOff >= 0`,
`screenRows >= 1` and `screenCols >= 1`. -/
theorem refreshScreen_idempotent (s : EditorConfig) (now : Int) :
    (∀ s1 buf, editorRefreshScreen s now = some (s1, buf) →
      editorRefreshScreen s1 now = some (s1, buf)) ∧
    (DocWF s → CursorInv s → 0 ≤ s.rowOff → 0 ≤ s.colOff → 1 ≤ s.screenRows →
      1 ≤ s.screenCols → ∃ s1 buf, editorRefreshScreen s now = some (s1, buf)) := by
  constructor
  · intro s1 buf h
    simp only [editorRefreshScreen, Option.bind_eq_some, Option.map_eq_some',
      Prod.mk.injEq] at h
    obtain ⟨t, ht, b, hb, rfl, rfl⟩ := h
    simp only [editorRefreshScreen, editorScroll_idem s t ht, Option.some_bind, hb,
      Option.map_some']
  · intro hwf hc hro hco hsr hsc
    obtain ⟨rx, hrx0, hrx⟩ := scrollRx_total_nonneg s hwf hc
    have hscroll : editorScroll s = some (scrollOffsets { s with rx := rx }) := by
      simp [editorScroll, hrx]
    have heq := scrollOffsets_eq { s with rx := rx }
    have hwf1 : DocWF (scrollOffsets { s with rx := rx }) := by
      rw [heq]
      exact hwf
    have hro1 : 0 ≤ (scrollOffsets { s with rx := rx }).rowOff := by
      rw [heq]
      exact clampOff_nonneg s.rowOff s.cy s.screenRows hro hc.1 hsr
    have hco1 : 0 ≤ (scrollOffsets { s with rx := rx }).colOff := by
      rw [heq]
      exact clampOff_nonneg s.colOff rx s.screenCols hco hrx0 hsc
    have hsc1 : 0 ≤ (scrollOffsets { s with rx := rx }).screenCols := by
      rw [heq]
      show 0 ≤ s.screenCols
      omega
    obtain ⟨buf, hbuf⟩ := composeFrame_total _ now hwf1 hro1 hco1 hsc1
    refine ⟨scrollOffsets { s with rx := rx }, buf, ?_⟩
    simp only [editorRefreshScreen, hscroll, Option.some_bind, hbuf, Option.map_some']

theorem refreshScreen_idempotent_witness :
    ∃ s1 buf, editorRefreshScreen (threeRowState 3 1 0 0 2 4) 3 = some (s1, buf) ∧
      editorRefreshScreen s1 3 = some (s1, buf) :=
  (fun h => (h.2 (by decide) (by decide) (by decide) (by decide) (by decide) (by decide)).elim
    (fun s1 hs => hs.elim (fun buf hb => ⟨s1, buf, hb, h.1 s1 buf hb⟩)))
  (refreshScreen_idempotent (threeRowState 3 1 0 0 2 4) 3)

/-! ## The End key on the trailing row -/

/-- C19 (the code at the failing input): in the initial state of the editor
started without a file, which satisfies the cursor invariant with the cursor
on the trailing row (`cy == numRows == 0`), the End key (`ESC [ F`) makes
`editorProcessKeypress` read `rows[0]`, which does not exist: the dispatch has
no defined result. -/
theorem end_key_reads_missing_row :
    DocWF (initEditor 24 80) ∧ CursorInv (initEditor 24 80) ∧
    (initEditor 24 80).cy = (initEditor 24 80).numRows ∧
    editorReadKey [ReadResult.byte 27, ReadResult.byte 91, ReadResult.byte 70]
      = some (END_KEY, []) ∧
    (initEditor 24 80).rows.getI (initEditor 24 80).cy = none ∧
    editorProcessKeypress (initEditor 24 80) END_KEY = Outcome.fault := by
  decide

/-- C20 (the code at the failing input): after loading a one-line file, the
key Down puts the cursor on the trailing row at column 0 (`cy == numRows == 1`,
`cx == 0`); the key End then reads the length of `rows[1]`, which does not
exist, so the value stored in `cx` is not defined and nothing keeps it at 0. -/
theorem end_key_breaks_trailing_column :
    editorAppendRow (initEditor 24 80) [97] = some oneRowState ∧
    editorScroll oneRowState = some oneRowState ∧
    (runKeys oneRowState [ARROW_DOWN]).state?.map (fun t => (t.cy, t.numRows, t.cx))
      = some (1, 1, 0) ∧
    oneRowState.rows.getI 1 = none ∧
    runKeys oneRowState [ARROW_DOWN, END_KEY] = Outcome.fault := by
  decide

/-! ## What the main loop keeps true -/

theorem clampOff_le (off pos size : Int) (hs : 1 ≤ size) : clampOff off pos size ≤ pos := by
  simp only [clampOff]
  split_ifs <;> omega

theorem editorScroll_loopInv (s u : EditorConfig) (h : editorScroll s = some u)
    (hinv : LoopInv s) : LoopInv u ∧ u.rowOff ≤ u.cy := by
  obtain ⟨hwf, hc, htrail, hro, hsr⟩ := hinv
  simp only [editorScroll, Option.map_eq_some'] at h
  obtain ⟨u0, hu0, rfl⟩ := h
  obtain ⟨r, rfl⟩ := scrollRx_frame s u0 hu0
  rw [scrollOffsets_eq]
  exact ⟨⟨hwf, hc, htrail, clampOff_nonneg s.rowOff s.cy s.screenRows hro hc.1 hsr, hsr⟩,
    clampOff_le s.rowOff s.cy s.screenRows hsr⟩

theorem Outcome.ofOption_running (o : Option EditorConfig) (t : EditorConfig)
    (h : Outcome.ofOption o = Outcome.running t) : o = some t := by
  cases o with
  | none => simp [Outcome.ofOption] at h
  | some x =>
    simp only [Outcome.ofOption, Outcome.running.injEq] at h
    rw [h]

theorem loopInv_of_cursor_move (s t : EditorConfig) (hwf : DocWF s) (hro : 0 ≤ s.rowOff)
    (hsr : 1 ≤ s.screenRows) (hsame : SameButCursor s t) (h0 : 0 ≤ t.cy)
    (h1 : t.cy ≤ t.numRows) (h2 : 0 ≤ t.cx) (h3 : t.cx ≤ rowLen t t.cy) : LoopInv t := by
  have hwft := hsame.docWF s t hwf
  obtain ⟨_, e2, _, e4, _, _, _, _, _, _, _⟩ := hsame
  refine ⟨hwft, ⟨h0, h1, fun _ => ⟨h2, h3⟩⟩, ?_, by rw [e2]; exact hro, by rw [e4]; exact hsr⟩
  intro hcy
  have hz : rowLen t t.cy = 0 := rowLen_of_ge t t.cy (by rw [hwft.2.2.1, hcy])
  omega

theorem editorInsertChar_docWF (s t : EditorConfig) (c : Nat) (hwf : DocWF s)
    (h0 : 0 ≤ s.cy) (h1 : s.cy ≤ s.numRows) (ht : editorInsertChar s c = some t)
    (hfit : t.numRows ≤ INT_MAX) :
    DocWF t ∧ t.cy < t.numRows ∧ t.rowOff = s.rowOff ∧ t.screenRows = s.screenRows := by
  have hwf' := hwf
  obtain ⟨hn, hmax, hrows, hrend⟩ := hwf'
  have hl1 : (s.rows.elems.length : Int) = s.numRows := by
    rw [← StringArray.size_eq_elems]
    exact hrows
  have hl2 : (s.renderRows.elems.length : Int) = s.numRows := by
    rw [← StringArray.size_eq_elems]
    exact hrend
  by_cases hcy : s.cy = s.numRows
  · rw [editorInsertChar_trailing_eq s c hwf hcy] at ht
    cases ht
    refine ⟨⟨by show 0 ≤ s.numRows + 1; omega, hfit, ?_, ?_⟩, by show s.cy < s.numRows + 1; omega,
      rfl, rfl⟩
    · simp only [StringArray.size_alloc, List.length_set, List.length_append,
        List.length_singleton]
      push_cast
      omega
    · simp only [StringArray.size_alloc, List.length_set, List.length_append,
        List.length_singleton]
      push_cast
      omega
  · have hlt : s.cy < s.numRows := by omega
    obtain ⟨row, hrow⟩ := s.rows.getI_isSome s.cy h0 (by omega)
    rw [editorInsertChar_in_row_eq s c hwf h0 hlt row hrow] at ht
    cases ht
    refine ⟨⟨hn, hmax, ?_, ?_⟩, hlt, rfl, rfl⟩
    · simp only [StringArray.size_alloc, List.length_set]
      exact hl1
    · simp only [StringArray.size_alloc, List.length_set]
      exact hl2

theorem processKeypress_loopInv (u t : EditorConfig) (c : Int) (hinv : LoopInv u)
    (hv1 : u.rowOff ≤ u.cy) (hrun : editorProcessKeypress u c = Outcome.running t)
    (hfit : t.numRows ≤ INT_MAX) : LoopInv t := by
  have hinv' := hinv
  obtain ⟨hwf, hc, htrail, hro, hsr⟩ := hinv'
  have hcx0 := cursor_cx_nonneg u hc htrail
  have hc' := hc
  obtain ⟨h0, h1, hcx⟩ := hc'
  obtain ⟨k, hk⟩ : ∃ k : Nat, u.screenRows.toNat = k + 1 :=
    ⟨(u.screenRows - 1).toNat, by omega⟩
  have hnneg : ¬ (u.screenRows < 0) := by omega
  by_cases hnoop : c = 13 ∨ c = BACKSPACE ∨ c = CTRL_KEY 104 ∨ c = DEL_KEY ∨
      c = CTRL_KEY 108 ∨ c = ESC
  · rw [processKeypress_noop u c hnoop] at hrun
    cases hrun
    exact hinv
  by_cases hquit : c = CTRL_KEY 113
  · subst hquit
    have hq : editorProcessKeypress u (CTRL_KEY 113) = Outcome.exited 0 := by
      simp [editorProcessKeypress, CTRL_KEY_q]
    rw [hq] at hrun
    cases hrun
  by_cases hhome : c = HOME_KEY
  · subst hhome
    rw [processKeypress_home] at hrun
    cases hrun
    exact ⟨hwf, ⟨h0, h1, fun _ => ⟨le_rfl, rowLen_nonneg u u.cy⟩⟩, fun _ => rfl, hro, hsr⟩
  by_cases hendk : c = END_KEY
  · subst hendk
    rw [processKeypress_end] at hrun
    have hsome := Outcome.ofOption_running _ t hrun
    simp only [Option.map_eq_some'] at hsome
    obtain ⟨r, hr, rfl⟩ := hsome
    have hlt : u.cy < u.numRows := by
      by_contra hge
      rw [u.rows.getI_of_ge u.cy (by rw [hwf.2.2.1]; omega)] at hr
      cases hr
    refine ⟨hwf, ⟨h0, h1, fun _ => ⟨Int.natCast_nonneg _, ?_⟩⟩, fun hcy => ?_, hro, hsr⟩
    · exact le_of_eq (rowLen_of_getI u u.cy r hr).symm
    · exact absurd hcy (by show ¬ u.cy = u.numRows; omega)
  by_cases hpage : c = PAGE_UP ∨ c = PAGE_DOWN
  · rw [processKeypress_page u c hpage] at hrun
    have hsome := Outcome.ofOption_running _ t hrun
    rcases hpage with rfl | rfl
    · have hpm : pageMove u PAGE_UP
          = moveCursorTimes ARROW_UP (k + 1) { u with cy := u.rowOff } := by
        simp [pageMove, hnneg, hk]
      obtain ⟨t', ht', hst, a0, a1, a2, a3⟩ :=
        moveCursorTimes_inv ARROW_UP (Or.inr (Or.inr (Or.inl rfl))) k
          { u with cy := u.rowOff } hwf hro (by show u.rowOff ≤ u.numRows; omega) hcx0
      rw [hpm, ht'] at hsome
      cases hsome
      exact loopInv_of_cursor_move { u with cy := u.rowOff } t hwf hro hsr hst a0 a1 a2 a3
    · have hne : ¬ (PAGE_DOWN = PAGE_UP) := by decide
      by_cases hgt : u.rowOff + u.screenRows - 1 > u.numRows
      · have hpm : pageMove u PAGE_DOWN
            = moveCursorTimes ARROW_DOWN (k + 1) { u with cy := u.numRows } := by
          simp [pageMove, hne, hgt, hnneg, hk]
        obtain ⟨t', ht', hst, a0, a1, a2, a3⟩ :=
          moveCursorTimes_inv ARROW_DOWN (Or.inr (Or.inr (Or.inr rfl))) k
            { u with cy := u.numRows } hwf hwf.1 le_rfl hcx0
        rw [hpm, ht'] at hsome
        cases hsome
        exact loopInv_of_cursor_move { u with cy := u.numRows } t hwf hro hsr hst a0 a1 a2 a3
      · have hpm : pageMove u PAGE_DOWN
            = moveCursorTimes ARROW_DOWN (k + 1)
                { u with cy := u.rowOff + u.screenRows - 1 } := by
          simp [pageMove, hne, hgt, hnneg, hk]
        obtain ⟨t', ht', hst, a0, a1, a2, a3⟩ :=
          moveCursorTimes_inv ARROW_DOWN (Or.inr (Or.inr (Or.inr rfl))) k
            { u with cy := u.rowOff + u.screenRows - 1 } hwf
            (by show 0 ≤ u.rowOff + u.screenRows - 1; omega)
            (by show u.rowOff + u.screenRows - 1 ≤ u.numRows; omega) hcx0
        rw [hpm, ht'] at hsome
        cases hsome
        exact loopInv_of_cursor_move { u with cy := u.rowOff + u.screenRows - 1 } t hwf hro
          hsr hst a0 a1 a2 a3
  by_cases harrow : c = ARROW_LEFT ∨ c = ARROW_RIGHT ∨ c = ARROW_UP ∨ c = ARROW_DOWN
  · rw [processKeypress_arrow u c harrow] at hrun
    have hsome := Outcome.ofOption_running _ t hrun
    obtain ⟨t', ht', hst, a0, a1, a2, a3⟩ := editorMoveCursor_inv u c harrow hwf h0 h1 hcx0
    rw [ht'] at hsome
    cases hsome
    exact loopInv_of_cursor_move u t hwf hro hsr hst a0 a1 a2 a3
  · simp only [not_or] at hnoop hpage harrow
    obtain ⟨n1, n2, n3, n4, n5, n6⟩ := hnoop
    rw [processKeypress_default u c n1 hquit hhome hendk n2 n3 n4 hpage.1 hpage.2
      harrow.1 harrow.2.1 harrow.2.2.1 harrow.2.2.2 n5 n6] at hrun
    have hsome := Outcome.ofOption_running _ t hrun
    obtain ⟨t', ht', hti⟩ := editorInsertChar_cursorInv u (intToChar c) hwf hc htrail
    rw [hsome] at ht'
    cases ht'
    obtain ⟨d1, d2, d3, d4⟩ := editorInsertChar_docWF u t (intToChar c) hwf h0 h1 hsome hfit
    exact ⟨d1, hti, fun hcy => absurd hcy (by omega), by rw [d3]; exact hro,
      by rw [d4]; exact hsr⟩

theorem Loaded.startInv (s : EditorConfig) (h : Loaded s) :
    LoopInv s ∧ s.cx = 0 ∧ s.cy = 0 := by
  induction h with
  | init r c hr =>
    have hwf : DocWF (initEditor r c) :=
      ⟨le_rfl, by show (0 : Int) ≤ INT_MAX; decide, rfl, rfl⟩
    have hcur : CursorInv (initEditor r c) :=
      ⟨le_rfl, le_rfl, fun hlt => absurd hlt (lt_irrefl _)⟩
    exact ⟨⟨hwf, hcur, fun _ => rfl, le_rfl, hr⟩, rfl, rfl⟩
  | append s t row _ ht hfit ih =>
    obtain ⟨⟨hwf, hc, _, hro, hsr⟩, hcx, hcy⟩ := ih
    rw [editorAppendRow_eq s row hwf] at ht
    cases ht
    have hwf' := hwf
    obtain ⟨hn, _, hrows, hrend⟩ := hwf'
    have hl1 : (s.rows.elems.length : Int) = s.numRows := by
      rw [← StringArray.size_eq_elems]
      exact hrows
    have hl2 : (s.renderRows.elems.length : Int) = s.numRows := by
      rw [← StringArray.size_eq_elems]
      exact hrend
    refine ⟨⟨⟨by show 0 ≤ s.numRows + 1; omega, hfit, ?_, ?_⟩,
      ⟨hc.1, by show s.cy ≤ s.numRows + 1; omega, fun _ => ⟨?_, ?_⟩⟩,
      fun e => ?_, hro, hsr⟩, hcx, hcy⟩
    · simp only [StringArray.size_alloc, List.length_append, List.length_singleton]
      push_cast
      omega
    · simp only [StringArray.size_alloc, List.length_append, List.length_singleton]
      push_cast
      omega
    · show 0 ≤ s.cx
      omega
    · show s.cx ≤ rowLen _ s.cy
      rw [hcx]
      exact rowLen_nonneg _ _
    · exact hcx

/-- Every state at the top of the main loop is well formed, satisfies the
cursor invariant, and has the cursor at column 0 whenever it is on the trailing
row.  The relation `LoopReachable` only follows dispatches that return a
state: End pressed on the trailing row reads a row that does not exist and
returns none. -/
theorem LoopReachable.loopInv (s : EditorConfig) (h : LoopReachable s) : LoopInv s := by
  induction h with
  | loaded s hl => exact (hl.startInv s).1
  | step s u t c _ hscroll hrun hfit ih =>
    obtain ⟨hu, hv⟩ := editorScroll_loopInv s u hscroll ih
    exact processKeypress_loopInv u t c hu hv hrun hfit

end Kilo
